import Mathlib

/-!
Verification of the mp4ameta atom tree engine and identifier model.

The byte-stream engine (`Atom.parse`, `Atom.parse_atoms`, `Atom.parse_head`,
`Atom.parse_content`, `Atom.read_from`, `Atom.is_valid_filetype`) is embedded
from `src/mp4meta/src/atom.rs`.  Bytes are modelled as `Nat` values below 256;
`u32`/`usize` arithmetic is modelled on `Nat` (the guarded `length - 8`
subtractions in the source coincide with truncated `Nat` subtraction).
A reader is a finite byte list plus the I/O error kind produced once the data
runs out (`unexpectedEof` models a plain end of stream, other kinds model a
failing reader).  Error descriptions carried by `crate::Error` are elided;
only the `ErrorKind` is modelled.

`Content::parse`, `Data::parse` and `Data::read_to_u8_vec` live in files of
the repository that are not available, so they are modelled from the spec
(see the doc comments marked `Modelled from the spec:`).

The identifier model (`Fourcc`, `FreeformIdent`, `DataIdent`) is embedded
from `src/src/atom/ident.rs`.
-/

namespace Mp4ameta

/-- Kind of an underlying I/O read error (`std::io::ErrorKind`): either a
clean end of stream (`UnexpectedEof`) or any other failure kind, indexed by
a code. -/
inductive IoErrKind where
  | unexpectedEof : IoErrKind
  | otherKind (code : Nat) : IoErrKind
deriving DecidableEq, Repr

/-- `crate::ErrorKind`, restricted to the variants the atom engine produces
(`Io`, `AtomNotFound`, `NoTag`).  The error description string carried by
`crate::Error` is elided. -/
inductive ErrKind where
  | ioErr (k : IoErrKind) : ErrKind
  | atomNotFound (head : List Nat) : ErrKind
  | noTag : ErrKind
deriving DecidableEq, Repr

/-- A forward-only byte stream: the remaining bytes, plus the I/O error kind
the reader yields once the bytes are exhausted (`unexpectedEof` for a normal
end of stream). -/
structure Reader where
  data : List Nat
  tailErr : IoErrKind
deriving DecidableEq, Repr

/-- `std::io::Read::read_exact` over the reader model: returns exactly `n`
bytes, or the reader's error kind wrapped as `ErrorKind::Io` when fewer than
`n` bytes remain. -/
def readExact (r : Reader) (n : Nat) : Except ErrKind (List Nat × Reader) :=
  if n ≤ r.data.length then
    .ok (r.data.take n, ⟨r.data.drop n, r.tailErr⟩)
  else
    .error (.ioErr r.tailErr)

/-- Big-endian decoding of a 4-byte list (byteorder `read_u32::<BigEndian>`). -/
def beDecode (l : List Nat) : Nat :=
  match l with
  | [a, b, c, d] => ((a * 256 + b) * 256 + c) * 256 + d
  | _ => 0

/-- Big-endian encoding of a `u32` length field, as found in the wire
format's 4-byte length prefix. -/
def lenBytes (n : Nat) : List Nat :=
  [n / 16777216 % 256, n / 65536 % 256, n / 256 % 256, n % 256]

theorem lenBytes_length (n : Nat) : (lenBytes n).length = 4 := rfl

theorem beDecode_lenBytes (n : Nat) (h : n < 4294967296) :
    beDecode (lenBytes n) = n := by
  simp only [lenBytes, beDecode]
  omega

theorem readExact_append (xs ys : List Nat) (e : IoErrKind) :
    readExact ⟨xs ++ ys, e⟩ xs.length = .ok (xs, ⟨ys, e⟩) := by
  simp [readExact, List.take_left, List.drop_left]

theorem readExact_append_len (xs ys : List Nat) (e : IoErrKind) (n : Nat)
    (h : n = xs.length) :
    readExact ⟨xs ++ ys, e⟩ n = .ok (xs, ⟨ys, e⟩) := by
  subst h; exact readExact_append xs ys e

theorem readExact_short (r : Reader) (n : Nat) (h : r.data.length < n) :
    readExact r n = .error (.ioErr r.tailErr) := by
  simp [readExact]; omega

/-- UTF-8 decoding of a byte list into characters, or `none` when the bytes
are not valid UTF-8 (continuation-byte, overlong and surrogate checks as in
Rust `String::from_utf8`). -/
def utf8Chars : List Nat → Option (List Char)
  | [] => some []
  | b :: rest =>
    if b < 0x80 then (utf8Chars rest).map (fun cs => Char.ofNat b :: cs)
    else if b < 0xC2 then none
    else if b < 0xE0 then
      match rest with
      | c1 :: r =>
        if 0x80 ≤ c1 ∧ c1 < 0xC0 then
          (utf8Chars r).map (fun cs =>
            Char.ofNat ((b - 0xC0) * 0x40 + (c1 - 0x80)) :: cs)
        else none
      | _ => none
    else if b < 0xF0 then
      match rest with
      | c1 :: c2 :: r =>
        if (0x80 ≤ c1 ∧ c1 < 0xC0) ∧ (0x80 ≤ c2 ∧ c2 < 0xC0)
            ∧ (b ≠ 0xE0 ∨ 0xA0 ≤ c1) ∧ (b ≠ 0xED ∨ c1 < 0xA0) then
          (utf8Chars r).map (fun cs =>
            Char.ofNat (((b - 0xE0) * 0x40 + (c1 - 0x80)) * 0x40 + (c2 - 0x80)) :: cs)
        else none
      | _ => none
    else if b < 0xF5 then
      match rest with
      | c1 :: c2 :: c3 :: r =>
        if (0x80 ≤ c1 ∧ c1 < 0xC0) ∧ (0x80 ≤ c2 ∧ c2 < 0xC0) ∧ (0x80 ≤ c3 ∧ c3 < 0xC0)
            ∧ (b ≠ 0xF0 ∨ 0x90 ≤ c1) ∧ (b ≠ 0xF4 ∨ c1 < 0x90) then
          (utf8Chars r).map (fun cs =>
            Char.ofNat ((((b - 0xF0) * 0x40 + (c1 - 0x80)) * 0x40 + (c2 - 0x80)) * 0x40
              + (c3 - 0x80)) :: cs)
        else none
      | _ => none
    else none

/-- `String::from_utf8`, modelled over the byte-list representation.  The
Rust error payload (`FromUtf8Error`) is elided to `Unit`. -/
def decodeUtf8 (bs : List Nat) : Except Unit String :=
  match utf8Chars bs with
  | some cs => .ok (String.mk cs)
  | none => .error ()

/-- Modelled from the spec: the typed payload values handled by the external
`Data` collaborator (`src/mp4meta/src/data.rs` is not available).  Only the
shapes the engine observes are modelled: a UTF-8 text payload (held by the
`ftyp` template and checked by `is_valid_filetype`), the `Unparsed`
placeholder held by fresh `data` templates, and an opaque decoded byte
payload standing for every other decoded value. -/
instance {ε α : Type} [DecidableEq ε] [DecidableEq α] : DecidableEq (Except ε α)
  | .error a, .error b =>
    if h : a = b then isTrue (by rw [h]) else isFalse (by intro hh; cases hh; exact h rfl)
  | .error _, .ok _ => isFalse (by intro h; cases h)
  | .ok _, .error _ => isFalse (by intro h; cases h)
  | .ok a, .ok b =>
    if h : a = b then isTrue (by rw [h]) else isFalse (by intro hh; cases hh; exact h rfl)

inductive Data where
  | utf8 (res : Except Unit String) : Data
  | unparsed : Data
  | bytes (bs : List Nat) : Data
deriving DecidableEq, Repr

mutual

/-- `Content` from the source crate: the closed variant set `Empty`,
`RawData`, `TypedData`, `Atoms`. -/
inductive Content where
  | empty : Content
  | rawData (d : Data) : Content
  | typedData (d : Data) : Content
  | atoms (children : List Atom) : Content

/-- `Atom` from `src/mp4meta/src/atom.rs`: a 4-byte head (`[u8; 4]`,
modelled as a 4-element byte list), an offset, and a content. -/
inductive Atom where
  | mk (head : List Nat) (offset : Nat) (content : Content) : Atom

end

def Atom.head : Atom → List Nat
  | .mk h _ _ => h

def Atom.offset : Atom → Nat
  | .mk _ o _ => o

def Atom.content : Atom → Content
  | .mk _ _ c => c

@[simp] theorem Atom.head_mk (h : List Nat) (o : Nat) (c : Content) :
    (Atom.mk h o c).head = h := rfl

@[simp] theorem Atom.offset_mk (h : List Nat) (o : Nat) (c : Content) :
    (Atom.mk h o c).offset = o := rfl

@[simp] theorem Atom.content_mk (h : List Nat) (o : Nat) (c : Content) :
    (Atom.mk h o c).content = c := rfl

/-- Index of a `Content` variant, used to state variant preservation. -/
def Content.variantIdx : Content → Nat
  | .empty => 0
  | .rawData _ => 1
  | .typedData _ => 2
  | .atoms _ => 3

/-- Modelled from the spec: `Data::parse` (the external typed-data
collaborator, `src/mp4meta/src/data.rs` is not available).  It is handed a
byte budget, reads exactly that many bytes, and replaces the payload with the
decoded value: a UTF-8 payload is decoded as text, every other payload
becomes an opaque decoded value. -/
def Data.parse (d : Data) (r : Reader) (length : Nat) :
    Except ErrKind (Data × Reader) :=
  match readExact r length with
  | .error e => .error e
  | .ok (bs, r1) =>
    match d with
    | .utf8 _ => .ok (.utf8 (decodeUtf8 bs), r1)
    | _ => .ok (.bytes bs, r1)

/-- `Atom::parse_head`: reads the 4-byte big-endian length and the 4-byte
head; read failures are wrapped as `ErrorKind::Io`. -/
def Atom.parse_head (r : Reader) : Except ErrKind ((Nat × List Nat) × Reader) :=
  match readExact r 4 with
  | .error e => .error e
  | .ok (lb, r1) =>
    match readExact r1 4 with
    | .error e => .error e
    | .ok (hd, r2) => .ok ((beDecode lb, hd), r2)

/-- The first-match search performed by the `for a in atoms` loop inside
`Atom::parse_atoms`: splits the template list at the first template whose
head equals the parsed head, or returns `none` when no template matches. -/
def splitAtMatch : List Atom → List Nat → Option (List Atom × Atom × List Atom)
  | [], _ => none
  | a :: rest, h =>
    if h = a.head then some ([], a, rest)
    else
      match splitAtMatch rest h with
      | some (pre, m, post) => some (a :: pre, m, post)
      | none => none

/-- The four mutually recursive functions of the atom engine, computed
together by one structural recursion on a fuel counter so that concrete runs
reduce inside the kernel.  The fuel only forces termination: each loop
iteration consumes at least the 8 head bytes, so any fuel exceeding the
stream length gives the loop's true result (`fuelIrrelAll` below), and the
out-of-fuel branches are unreachable from the wrappers.  Components, in
order: the loop body of `Atom::parse` (single-target recursive scan), the
loop body of `Atom::parse_atoms` (multi-target sibling scan, with the
`parsed_bytes`/`parsed_atoms` accumulators of the source made explicit),
`Atom::parse_content`, and `Content::parse`. -/
def engineF : Nat →
    (Atom → Reader → Except ErrKind (Atom × Reader))
    × (List Atom → Reader → Nat → Nat → Nat → Except ErrKind (List Atom × Reader))
    × (Atom → Reader → Nat → Except ErrKind (Atom × Reader))
    × (Content → Reader → Nat → Except ErrKind (Content × Reader))
  | 0 =>
    (fun _ _ => .error (.ioErr .unexpectedEof),
     fun _ _ _ _ _ => .error (.ioErr .unexpectedEof),
     fun _ _ _ => .error (.ioErr .unexpectedEof),
     fun _ _ _ => .error (.ioErr .unexpectedEof))
  | fuel + 1 =>
    -- `Atom::parse` loop body: read a head; EOF here is translated to
    -- `AtomNotFound(self.head)`, other errors propagate; a matching head
    -- dispatches to `parse_content`, a non-matching atom of declared length
    -- above 8 has exactly `length - 8` body bytes discarded.
    (fun a r =>
      match Atom.parse_head r with
      | .error (.ioErr k) =>
        if k = .unexpectedEof then .error (.atomNotFound a.head)
        else .error (.ioErr k)
      | .error e => .error e
      | .ok ((length, head), r1) =>
        if head = a.head then (engineF fuel).2.2.1 a r1 length
        else if length > 8 then
          match readExact r1 (length - 8) with
          | .error e => .error e
          | .ok (_, r2) => (engineF fuel).1 a r2
        else (engineF fuel).1 a r1,
     -- `Atom::parse_atoms` loop body: while the declared bytes stay under
     -- the budget and the matched count stays under the template count,
     -- read a head, give it to the first template with the same head
     -- (`splitAtMatch`), and skip the body of unmatched atoms.  The
     -- template list keeps its length, so `atoms.length` equals the
     -- `atom_count` the source computes once on entry.
     fun atoms r length parsed_bytes parsed_atoms =>
      if parsed_bytes < length ∧ parsed_atoms < atoms.length then
        match Atom.parse_head r with
        | .error e => .error e
        | .ok ((atom_length, atom_head), r1) =>
          match splitAtMatch atoms atom_head with
          | some (pre, a, post) =>
            match (engineF fuel).2.2.1 a r1 atom_length with
            | .error e => .error e
            | .ok (a2, r2) =>
              (engineF fuel).2.1 (pre ++ a2 :: post) r2 length
                (parsed_bytes + atom_length) (parsed_atoms + 1)
          | none =>
            if atom_length > 8 then
              match readExact r1 (atom_length - 8) with
              | .error e => .error e
              | .ok (_, r2) =>
                (engineF fuel).2.1 atoms r2 length
                  (parsed_bytes + atom_length) parsed_atoms
            else
              (engineF fuel).2.1 atoms r1 length
                (parsed_bytes + atom_length) parsed_atoms
      else .ok (atoms, r),
     -- `Atom::parse_content`: for declared length above 8, skip the offset
     -- bytes and parse the content with byte budget `length - 8`; otherwise
     -- the content is replaced by `Content::Empty`.
     fun a r length =>
      if length > 8 then
        match (if a.offset ≠ 0 then readExact r a.offset else .ok ([], r)) with
        | .error e => .error e
        | .ok (_, r1) =>
          match (engineF fuel).2.2.2 a.content r1 (length - 8) with
          | .error e => .error e
          | .ok (c2, r2) => .ok (.mk a.head a.offset c2, r2)
      else .ok (.mk a.head a.offset .empty, r),
     -- Modelled from the spec: `Content::parse` (content.rs is not
     -- available).  Per the spec's dispatch, an `Atoms` content recurses via
     -- `parse_atoms` with the given byte budget, `TypedData`/`RawData` hand
     -- the budget to the typed-data collaborator, and `Empty` discards the
     -- budgeted bytes.
     fun c r length =>
      match c with
      | .atoms children =>
        match (engineF fuel).2.1 children r length 0 0 with
        | .error e => .error e
        | .ok (children2, r1) => .ok (.atoms children2, r1)
      | .rawData d =>
        match Data.parse d r length with
        | .error e => .error e
        | .ok (d2, r1) => .ok (.rawData d2, r1)
      | .typedData d =>
        match Data.parse d r length with
        | .error e => .error e
        | .ok (d2, r1) => .ok (.typedData d2, r1)
      | .empty =>
        match readExact r length with
        | .error e => .error e
        | .ok (_, r1) => .ok (.empty, r1))

/-- The loop body of `Atom::parse`. -/
def parseLoopF (fuel : Nat) : Atom → Reader → Except ErrKind (Atom × Reader) :=
  (engineF fuel).1

/-- The loop body of `Atom::parse_atoms`. -/
def parseAtomsLoopF (fuel : Nat) : List Atom → Reader → Nat → Nat → Nat →
    Except ErrKind (List Atom × Reader) :=
  (engineF fuel).2.1

/-- Fuelled `Atom::parse_content`. -/
def parseContentF (fuel : Nat) : Atom → Reader → Nat →
    Except ErrKind (Atom × Reader) :=
  (engineF fuel).2.2.1

/-- Fuelled `Content::parse` (see `engineF`). -/
def contentParseF (fuel : Nat) : Content → Reader → Nat →
    Except ErrKind (Content × Reader) :=
  (engineF fuel).2.2.2

theorem parseLoopF_zero (a : Atom) (r : Reader) :
    parseLoopF 0 a r = .error (.ioErr .unexpectedEof) := rfl

theorem parseLoopF_succ (fuel : Nat) (a : Atom) (r : Reader) :
    parseLoopF (fuel + 1) a r =
      match Atom.parse_head r with
      | .error (.ioErr k) =>
        if k = .unexpectedEof then .error (.atomNotFound a.head)
        else .error (.ioErr k)
      | .error e => .error e
      | .ok ((length, head), r1) =>
        if head = a.head then parseContentF fuel a r1 length
        else if length > 8 then
          match readExact r1 (length - 8) with
          | .error e => .error e
          | .ok (_, r2) => parseLoopF fuel a r2
        else parseLoopF fuel a r1 := rfl

theorem parseAtomsLoopF_zero (atoms : List Atom) (r : Reader)
    (length pb pa : Nat) :
    parseAtomsLoopF 0 atoms r length pb pa = .error (.ioErr .unexpectedEof) := rfl

theorem parseAtomsLoopF_succ (fuel : Nat) (atoms : List Atom) (r : Reader)
    (length parsed_bytes parsed_atoms : Nat) :
    parseAtomsLoopF (fuel + 1) atoms r length parsed_bytes parsed_atoms =
      (if parsed_bytes < length ∧ parsed_atoms < atoms.length then
        match Atom.parse_head r with
        | .error e => .error e
        | .ok ((atom_length, atom_head), r1) =>
          match splitAtMatch atoms atom_head with
          | some (pre, a, post) =>
            match parseContentF fuel a r1 atom_length with
            | .error e => .error e
            | .ok (a2, r2) =>
              parseAtomsLoopF fuel (pre ++ a2 :: post) r2 length
                (parsed_bytes + atom_length) (parsed_atoms + 1)
          | none =>
            if atom_length > 8 then
              match readExact r1 (atom_length - 8) with
              | .error e => .error e
              | .ok (_, r2) =>
                parseAtomsLoopF fuel atoms r2 length
                  (parsed_bytes + atom_length) parsed_atoms
            else
              parseAtomsLoopF fuel atoms r1 length
                (parsed_bytes + atom_length) parsed_atoms
      else .ok (atoms, r)) := rfl

theorem parseContentF_zero (a : Atom) (r : Reader) (length : Nat) :
    parseContentF 0 a r length = .error (.ioErr .unexpectedEof) := rfl

theorem parseContentF_succ (fuel : Nat) (a : Atom) (r : Reader) (length : Nat) :
    parseContentF (fuel + 1) a r length =
      (if length > 8 then
        match (if a.offset ≠ 0 then readExact r a.offset else .ok ([], r)) with
        | .error e => .error e
        | .ok (_, r1) =>
          match contentParseF fuel a.content r1 (length - 8) with
          | .error e => .error e
          | .ok (c2, r2) => .ok (.mk a.head a.offset c2, r2)
      else .ok (.mk a.head a.offset .empty, r)) := rfl

theorem contentParseF_zero (c : Content) (r : Reader) (length : Nat) :
    contentParseF 0 c r length = .error (.ioErr .unexpectedEof) := rfl

theorem contentParseF_succ (fuel : Nat) (c : Content) (r : Reader)
    (length : Nat) :
    contentParseF (fuel + 1) c r length =
      (match c with
      | .atoms children =>
        match parseAtomsLoopF fuel children r length 0 0 with
        | .error e => .error e
        | .ok (children2, r1) => .ok (.atoms children2, r1)
      | .rawData d =>
        match Data.parse d r length with
        | .error e => .error e
        | .ok (d2, r1) => .ok (.rawData d2, r1)
      | .typedData d =>
        match Data.parse d r length with
        | .error e => .error e
        | .ok (d2, r1) => .ok (.typedData d2, r1)
      | .empty =>
        match readExact r length with
        | .error e => .error e
        | .ok (_, r1) => .ok (.empty, r1)) := rfl

/-- `Atom::parse` (single-target recursive scan), as the fuelled loop run
with enough fuel for the whole stream. -/
def Atom.parse (a : Atom) (r : Reader) : Except ErrKind (Atom × Reader) :=
  parseLoopF (r.data.length + 1) a r

/-- `Atom::parse_atoms` (multi-target sibling scan under a byte budget). -/
def Atom.parse_atoms (atoms : List Atom) (r : Reader) (length : Nat) :
    Except ErrKind (List Atom × Reader) :=
  parseAtomsLoopF (r.data.length + 1) atoms r length 0 0

/-- `Atom::parse_content`. -/
def Atom.parse_content (a : Atom) (r : Reader) (length : Nat) :
    Except ErrKind (Atom × Reader) :=
  parseContentF (r.data.length + 2 + 1) a r length

/-- `Content::parse` (see `contentParseF`). -/
def Content.parse (c : Content) (r : Reader) (length : Nat) :
    Except ErrKind (Content × Reader) :=
  contentParseF (r.data.length + 1 + 1) c r length

/-- `ftyp`, the file-type atom head. -/
def FILE_TYPE : List Nat := [0x66, 0x74, 0x79, 0x70]

/-- `moov`, the movie atom head. -/
def MOVIE : List Nat := [0x6d, 0x6f, 0x6f, 0x76]

/-- `udta`. -/
def USER_DATA : List Nat := [0x75, 0x64, 0x74, 0x61]

/-- `meta`. -/
def METADATA : List Nat := [0x6d, 0x65, 0x74, 0x61]

/-- `ilst`. -/
def ITEM_LIST : List Nat := [0x69, 0x6c, 0x73, 0x74]

/-- `data`. -/
def DATA_HEAD : List Nat := [0x64, 0x61, 0x74, 0x61]

/-- The list of valid file types defined by the `ftyp` atom. -/
def VALID_FILE_TYPES : List String := ["M4A ", "M4B "]

/-- `Atom::data_atom`: a `data` template holding `TypedData(Data::Unparsed)`. -/
def Atom.data_atom : Atom := .mk DATA_HEAD 0 (.typedData .unparsed)

/-- Modelled from the spec: `Content::data_atom()` (content.rs is not
available) — an `Atoms` content holding a single fresh `data` template. -/
def Content.data_atom : Content := .atoms [Atom.data_atom]

/-- Modelled from the spec: `Content::with_atom` — an `Atoms` content holding
the single given child template. -/
def Content.with_atom (h : List Nat) (o : Nat) (c : Content) : Content :=
  .atoms [.mk h o c]

/-- `Atom::filetype_atom`: the `ftyp` template, a `RawData` content holding
an empty UTF-8 payload (`Data::empty_utf8()`). -/
def Atom.filetype_atom : Atom := .mk FILE_TYPE 0 (.rawData (.utf8 (.ok "")))

/-- Rust `str::starts_with`, modelled as a character-list prefix test on the
decoded text (for valid UTF-8 this coincides with the byte prefix test). -/
def strStartsWith (s p : String) : Bool :=
  p.data.isPrefixOf s.data

/-- `Atom::is_valid_filetype`: the content must be a successfully decoded
UTF-8 `RawData` payload whose text starts with one of
`VALID_FILE_TYPES`. -/
def Atom.is_valid_filetype (a : Atom) : Bool :=
  match a.content with
  | .rawData (.utf8 (.ok s)) => VALID_FILE_TYPES.any (fun f => strStartsWith s f)
  | _ => false

/-- A metadata tag: a view over the populated `moov` template
(`Tag::with(moov)`; `tag.rs` is not available, so the wrapper is modelled
from the spec as holding the parsed atom tree). -/
structure Tag where
  atom : Atom

/-- `Atom::metadata_atom`: the canonical metadata template
`moov > udta > meta(offset 4) > ilst > {tag fourccs} > data`.  The child
list of `ilst` is kept abridged to three representative tag templates; the
remaining children of the source are built the same way and none of the
claims depends on the exact roster. -/
def Atom.metadata_atom : Atom :=
  .mk MOVIE 0 (Content.with_atom USER_DATA 0
    (Content.with_atom METADATA 4
      (Content.with_atom ITEM_LIST 0
        (.atoms [
          .mk [0xa9, 0x61, 0x6c, 0x62] 0 Content.data_atom,
          .mk [0x61, 0x41, 0x52, 0x54] 0 Content.data_atom,
          .mk [0xa9, 0x41, 0x52, 0x54] 0 Content.data_atom]))))

/-- `Atom::read_from`: parse the `ftyp` template, validate the file type
(otherwise `NoTag`), then parse the canonical metadata template. -/
def Atom.read_from (r : Reader) : Except ErrKind (Tag × Reader) :=
  match Atom.parse Atom.filetype_atom r with
  | .error e => .error e
  | .ok (ftyp, r1) =>
    if Atom.is_valid_filetype ftyp then
      match Atom.parse Atom.metadata_atom r1 with
      | .error e => .error e
      | .ok (moov, r2) => .ok (⟨moov⟩, r2)
    else .error .noTag

/-- Wire framing of one atom: 4-byte big-endian total length
(`8 + body.length`), 4-byte head, body. -/
def frame (h : List Nat) (body : List Nat) : List Nat :=
  lenBytes (8 + body.length) ++ h ++ body

/-- Wire framing of a sibling sequence. -/
def frames : List (List Nat × List Nat) → List Nat
  | [] => []
  | en :: es => frame en.1 en.2 ++ frames es

/-- Sum of the declared lengths of a sibling sequence. -/
def sumLens : List (List Nat × List Nat) → Nat
  | [] => 0
  | en :: es => (8 + en.2.length) + sumLens es

/-- A template whose matched parse consumes exactly its declared length:
offset 0 and a non-`Atoms` content. -/
def dataLike (a : Atom) : Bool :=
  a.offset == 0 && Content.variantIdx a.content != 3

/-- Modelled from the spec: the payload replacement `Data::parse` performs
once its byte budget has been read. -/
def Data.parsed (d : Data) (bs : List Nat) : Data :=
  match d with
  | .utf8 _ => .utf8 (decodeUtf8 bs)
  | _ => .bytes bs

/-- The result of `parse_content` on a data-like template whose declared
body is `seg`: for an empty body the content is reset to `Empty`
(declared length 8), otherwise the payload inside the variant is replaced
by the decoded segment. -/
def parsedDataAtom (a : Atom) (seg : List Nat) : Atom :=
  if seg = [] then .mk a.head a.offset .empty
  else
    match a.content with
    | .rawData d => .mk a.head a.offset (.rawData (Data.parsed d seg))
    | .typedData d => .mk a.head a.offset (.typedData (Data.parsed d seg))
    | c => .mk a.head a.offset c

theorem readExact_ok {r : Reader} {n : Nat} {bs : List Nat} {r1 : Reader}
    (h : readExact r n = .ok (bs, r1)) :
    r1.data = r.data.drop n ∧ r1.tailErr = r.tailErr ∧ n ≤ r.data.length ∧
      bs = r.data.take n := by
  unfold readExact at h
  split at h
  · cases h; exact ⟨rfl, rfl, by assumption, rfl⟩
  · cases h

theorem parse_head_ok {r : Reader} {L : Nat} {hd : List Nat} {r1 : Reader}
    (h : Atom.parse_head r = .ok ((L, hd), r1)) :
    r1.data = r.data.drop 8 ∧ r1.tailErr = r.tailErr ∧ 8 ≤ r.data.length := by
  unfold Atom.parse_head at h
  cases h4 : readExact r 4 with
  | error e => rw [h4] at h; cases h
  | ok p =>
    obtain ⟨lb, ra⟩ := p
    rw [h4] at h
    dsimp only at h
    cases h4b : readExact ra 4 with
    | error e => rw [h4b] at h; cases h
    | ok q =>
      obtain ⟨hb, rb⟩ := q
      rw [h4b] at h
      dsimp only at h
      cases h
      obtain ⟨hd1, he1, hl1, -⟩ := readExact_ok h4
      obtain ⟨hd2, he2, hl2, -⟩ := readExact_ok h4b
      refine ⟨?_, by rw [he2, he1], ?_⟩
      · rw [hd2, hd1, List.drop_drop]
      · rw [hd1] at hl2
        simp only [List.length_drop] at hl2
        omega

theorem parse_head_short {r : Reader} (h : r.data.length < 8) :
    Atom.parse_head r = .error (.ioErr r.tailErr) := by
  unfold Atom.parse_head
  by_cases h4 : r.data.length < 4
  · rw [readExact_short r 4 h4]
  · have hok : readExact r 4 = .ok (r.data.take 4, ⟨r.data.drop 4, r.tailErr⟩) := by
      unfold readExact
      rw [if_pos (by omega)]
    rw [hok]
    dsimp only
    have : (⟨r.data.drop 4, r.tailErr⟩ : Reader).data.length < 4 := by
      simp only [List.length_drop]; omega
    rw [readExact_short _ 4 this]

theorem parse_head_frame (L : Nat) (hd s : List Nat) (e : IoErrKind)
    (hL : L < 4294967296) (hhd : hd.length = 4) :
    Atom.parse_head ⟨lenBytes L ++ (hd ++ s), e⟩ = .ok ((L, hd), ⟨s, e⟩) := by
  unfold Atom.parse_head
  rw [readExact_append_len (lenBytes L) (hd ++ s) e 4 (lenBytes_length L).symm]
  dsimp only
  rw [readExact_append_len hd s e 4 hhd.symm]
  dsimp only
  rw [beDecode_lenBytes L hL]

theorem Data.parse_ok {d : Data} {r : Reader} {n : Nat} {d2 : Data} {r1 : Reader}
    (h : Data.parse d r n = .ok (d2, r1)) :
    r1.data = r.data.drop n ∧ r1.tailErr = r.tailErr := by
  unfold Data.parse at h
  cases hr : readExact r n with
  | error e => rw [hr] at h; cases h
  | ok p =>
    obtain ⟨bs, ra⟩ := p
    rw [hr] at h
    dsimp only at h
    obtain ⟨h1, h2, -, -⟩ := readExact_ok hr
    cases d <;> (cases h; exact ⟨h1, h2⟩)

/-- Parsing only consumes bytes from the reader and never changes its tail
error kind, for all four mutually recursive engine functions. -/
theorem shrinkAll : ∀ fuel : Nat,
    (∀ a r x, parseLoopF fuel a r = .ok x →
      x.2.data.length ≤ r.data.length ∧ x.2.tailErr = r.tailErr) ∧
    (∀ atoms r budget pb pa x, parseAtomsLoopF fuel atoms r budget pb pa = .ok x →
      x.2.data.length ≤ r.data.length ∧ x.2.tailErr = r.tailErr) ∧
    (∀ a r length x, parseContentF fuel a r length = .ok x →
      x.2.data.length ≤ r.data.length ∧ x.2.tailErr = r.tailErr) ∧
    (∀ c r length x, contentParseF fuel c r length = .ok x →
      x.2.data.length ≤ r.data.length ∧ x.2.tailErr = r.tailErr) := by
  intro fuel
  induction fuel with
  | zero =>
    refine ⟨?_, ?_, ?_, ?_⟩
    · intro a r x h; rw [parseLoopF_zero] at h; exact Except.noConfusion h
    · intro atoms r budget pb pa x h
      rw [parseAtomsLoopF_zero] at h; exact Except.noConfusion h
    · intro a r length x h; rw [parseContentF_zero] at h; exact Except.noConfusion h
    · intro c r length x h; rw [contentParseF_zero] at h; exact Except.noConfusion h
  | succ f ih =>
    obtain ⟨ihP, ihA, ihC, ihK⟩ := ih
    refine ⟨?_, ?_, ?_, ?_⟩
    · -- parseLoopF
      intro a r x h
      rw [parseLoopF_succ] at h
      cases hh : Atom.parse_head r with
      | error e =>
        cases e with
        | ioErr k =>
          rw [hh] at h; dsimp only at h
          split at h <;> exact Except.noConfusion h
        | atomNotFound hd => rw [hh] at h; exact Except.noConfusion h
        | noTag => rw [hh] at h; exact Except.noConfusion h
      | ok p =>
        obtain ⟨⟨L, hd⟩, r1⟩ := p
        rw [hh] at h; dsimp only at h
        obtain ⟨hr1, he1, hlen⟩ := parse_head_ok hh
        have l1 : r1.data.length = r.data.length - 8 := by
          rw [hr1]; simp [List.length_drop]
        by_cases hm : hd = a.head
        · rw [if_pos hm] at h
          obtain ⟨hx1, hx2⟩ := ihC a r1 L x h
          exact ⟨by omega, by rw [hx2, he1]⟩
        · rw [if_neg hm] at h
          by_cases hL : L > 8
          · rw [if_pos hL] at h
            cases hre : readExact r1 (L - 8) with
            | error e => rw [hre] at h; exact Except.noConfusion h
            | ok q =>
              obtain ⟨bs, r2⟩ := q
              rw [hre] at h; dsimp only at h
              obtain ⟨h2d, h2e, -, -⟩ := readExact_ok hre
              have l2 : r2.data.length = r1.data.length - (L - 8) := by
                rw [h2d]; simp [List.length_drop]
              obtain ⟨hx1, hx2⟩ := ihP a r2 x h
              exact ⟨by omega, by rw [hx2, h2e, he1]⟩
          · rw [if_neg hL] at h
            obtain ⟨hx1, hx2⟩ := ihP a r1 x h
            exact ⟨by omega, by rw [hx2, he1]⟩
    · -- parseAtomsLoopF
      intro atoms r budget pb pa x h
      rw [parseAtomsLoopF_succ] at h
      by_cases hg : pb < budget ∧ pa < atoms.length
      · rw [if_pos hg] at h
        cases hh : Atom.parse_head r with
        | error e => rw [hh] at h; exact Except.noConfusion h
        | ok p =>
          obtain ⟨⟨L, hd⟩, r1⟩ := p
          rw [hh] at h; dsimp only at h
          obtain ⟨hr1, he1, hlen⟩ := parse_head_ok hh
          have l1 : r1.data.length = r.data.length - 8 := by
            rw [hr1]; simp [List.length_drop]
          cases hs : splitAtMatch atoms hd with
          | some t =>
            obtain ⟨pre, m, post⟩ := t
            rw [hs] at h; dsimp only at h
            cases hc : parseContentF f m r1 L with
            | error e => rw [hc] at h; exact Except.noConfusion h
            | ok q =>
              obtain ⟨a2, r2⟩ := q
              rw [hc] at h; dsimp only at h
              obtain ⟨hc1, hc2⟩ := ihC m r1 L (a2, r2) hc
              obtain ⟨hx1, hx2⟩ := ihA (pre ++ a2 :: post) r2 budget
                (pb + L) (pa + 1) x h
              simp only at hc1 hc2
              exact ⟨by omega, by rw [hx2, hc2, he1]⟩
          | none =>
            rw [hs] at h; dsimp only at h
            by_cases hL : L > 8
            · rw [if_pos hL] at h
              cases hre : readExact r1 (L - 8) with
              | error e => rw [hre] at h; exact Except.noConfusion h
              | ok q =>
                obtain ⟨bs, r2⟩ := q
                rw [hre] at h; dsimp only at h
                obtain ⟨h2d, h2e, -, -⟩ := readExact_ok hre
                have l2 : r2.data.length = r1.data.length - (L - 8) := by
                  rw [h2d]; simp [List.length_drop]
                obtain ⟨hx1, hx2⟩ := ihA atoms r2 budget (pb + L) pa x h
                exact ⟨by omega, by rw [hx2, h2e, he1]⟩
            · rw [if_neg hL] at h
              obtain ⟨hx1, hx2⟩ := ihA atoms r1 budget (pb + L) pa x h
              exact ⟨by omega, by rw [hx2, he1]⟩
      · rw [if_neg hg] at h
        cases h
        exact ⟨le_refl _, rfl⟩
    · -- parseContentF
      intro a r length x h
      rw [parseContentF_succ] at h
      by_cases hL : length > 8
      · rw [if_pos hL] at h
        cases ho : (if a.offset ≠ 0 then readExact r a.offset else .ok ([], r)) with
        | error e => rw [ho] at h; exact Except.noConfusion h
        | ok q =>
          obtain ⟨bs, r1⟩ := q
          rw [ho] at h; dsimp only at h
          have hr1 : r1.data.length ≤ r.data.length ∧ r1.tailErr = r.tailErr := by
            by_cases hz : a.offset ≠ 0
            · rw [if_pos hz] at ho
              obtain ⟨h1, h2, -, -⟩ := readExact_ok ho
              rw [h1, h2]; simp [List.length_drop]
            · rw [if_neg hz] at ho
              cases ho
              exact ⟨le_refl _, rfl⟩
          cases hk : contentParseF f a.content r1 (length - 8) with
          | error e => rw [hk] at h; exact Except.noConfusion h
          | ok q2 =>
            obtain ⟨c2, r2⟩ := q2
            rw [hk] at h; dsimp only at h
            cases h
            obtain ⟨hk1, hk2⟩ := ihK a.content r1 (length - 8) (c2, r2) hk
            simp only at hk1 hk2
            exact ⟨le_trans hk1 hr1.1, by rw [hk2, hr1.2]⟩
      · rw [if_neg hL] at h
        cases h
        exact ⟨le_refl _, rfl⟩
    · -- contentParseF
      intro c r length x h
      cases c with
      | atoms children =>
        rw [contentParseF_succ] at h
        dsimp only at h
        cases hp : parseAtomsLoopF f children r length 0 0 with
        | error e => rw [hp] at h; exact Except.noConfusion h
        | ok q =>
          obtain ⟨children2, r1⟩ := q
          rw [hp] at h; dsimp only at h
          cases h
          obtain ⟨h1, h2⟩ := ihA children r length 0 0 (children2, r1) hp
          exact ⟨h1, h2⟩
      | rawData d =>
        rw [contentParseF_succ] at h
        dsimp only at h
        cases hp : Data.parse d r length with
        | error e => rw [hp] at h; exact Except.noConfusion h
        | ok q =>
          obtain ⟨d2, r1⟩ := q
          rw [hp] at h; dsimp only at h
          cases h
          obtain ⟨h1, h2⟩ := Data.parse_ok hp
          exact ⟨by rw [h1]; simp [List.length_drop], h2⟩
      | typedData d =>
        rw [contentParseF_succ] at h
        dsimp only at h
        cases hp : Data.parse d r length with
        | error e => rw [hp] at h; exact Except.noConfusion h
        | ok q =>
          obtain ⟨d2, r1⟩ := q
          rw [hp] at h; dsimp only at h
          cases h
          obtain ⟨h1, h2⟩ := Data.parse_ok hp
          exact ⟨by rw [h1]; simp [List.length_drop], h2⟩
      | empty =>
        rw [contentParseF_succ] at h
        dsimp only at h
        cases hp : readExact r length with
        | error e => rw [hp] at h; exact Except.noConfusion h
        | ok q =>
          obtain ⟨bs, r1⟩ := q
          rw [hp] at h; dsimp only at h
          cases h
          obtain ⟨h1, h2, -, -⟩ := readExact_ok hp
          exact ⟨by rw [h1]; simp [List.length_drop], h2⟩

theorem parseContentF_shrink {fuel : Nat} {a : Atom} {r : Reader} {length : Nat}
    {x : Atom × Reader} (h : parseContentF fuel a r length = .ok x) :
    x.2.data.length ≤ r.data.length ∧ x.2.tailErr = r.tailErr :=
  (shrinkAll fuel).2.2.1 a r length x h

/-- Fuel irrelevance: each loop iteration of the engine consumes at least
the 8 head bytes, so any fuel exceeding the remaining stream length (with a
small constant slack for the non-consuming `parse_content`/`Content::parse`
call chain) produces the same result. -/
theorem fuelIrrelAll : ∀ f1 : Nat,
    (∀ f2 a r, r.data.length < f1 → r.data.length < f2 →
      parseLoopF f1 a r = parseLoopF f2 a r) ∧
    (∀ f2 atoms r budget pb pa, r.data.length < f1 → r.data.length < f2 →
      parseAtomsLoopF f1 atoms r budget pb pa = parseAtomsLoopF f2 atoms r budget pb pa) ∧
    (∀ f2 a r length, r.data.length + 3 ≤ f1 → r.data.length + 3 ≤ f2 →
      parseContentF f1 a r length = parseContentF f2 a r length) ∧
    (∀ f2 c r length, r.data.length + 2 ≤ f1 → r.data.length + 2 ≤ f2 →
      contentParseF f1 c r length = contentParseF f2 c r length) := by
  intro f1
  induction f1 using Nat.strong_induction_on with
  | _ f1 ih =>
  refine ⟨?_, ?_, ?_, ?_⟩
  · -- parseLoopF
    intro f2 a r h1 h2
    obtain ⟨g1, rfl⟩ : ∃ g, f1 = g + 1 := ⟨f1 - 1, by omega⟩
    obtain ⟨g2, rfl⟩ : ∃ g, f2 = g + 1 := ⟨f2 - 1, by omega⟩
    rw [parseLoopF_succ, parseLoopF_succ]
    cases hh : Atom.parse_head r with
    | error e => cases e <;> rfl
    | ok p =>
      obtain ⟨⟨L, hd⟩, r1⟩ := p
      dsimp only
      obtain ⟨hr1, he1, hlen⟩ := parse_head_ok hh
      have l1 : r1.data.length = r.data.length - 8 := by
        rw [hr1]; simp [List.length_drop]
      by_cases hm : hd = a.head
      · rw [if_pos hm, if_pos hm]
        exact (ih g1 (by omega)).2.2.1 g2 a r1 L (by omega) (by omega)
      · rw [if_neg hm, if_neg hm]
        by_cases hL : L > 8
        · rw [if_pos hL, if_pos hL]
          cases hre : readExact r1 (L - 8) with
          | error e => rfl
          | ok q =>
            obtain ⟨bs, r2⟩ := q
            dsimp only
            obtain ⟨h2d, h2e, -, -⟩ := readExact_ok hre
            have l2 : r2.data.length = r1.data.length - (L - 8) := by
              rw [h2d]; simp [List.length_drop]
            exact (ih g1 (by omega)).1 g2 a r2 (by omega) (by omega)
        · rw [if_neg hL, if_neg hL]
          exact (ih g1 (by omega)).1 g2 a r1 (by omega) (by omega)
  · -- parseAtomsLoopF
    intro f2 atoms r budget pb pa h1 h2
    obtain ⟨g1, rfl⟩ : ∃ g, f1 = g + 1 := ⟨f1 - 1, by omega⟩
    obtain ⟨g2, rfl⟩ : ∃ g, f2 = g + 1 := ⟨f2 - 1, by omega⟩
    rw [parseAtomsLoopF_succ, parseAtomsLoopF_succ]
    by_cases hg : pb < budget ∧ pa < atoms.length
    · rw [if_pos hg, if_pos hg]
      cases hh : Atom.parse_head r with
      | error e => rfl
      | ok p =>
        obtain ⟨⟨L, hd⟩, r1⟩ := p
        dsimp only
        obtain ⟨hr1, he1, hlen⟩ := parse_head_ok hh
        have l1 : r1.data.length = r.data.length - 8 := by
          rw [hr1]; simp [List.length_drop]
        cases hs : splitAtMatch atoms hd with
        | some t =>
          obtain ⟨pre, m, post⟩ := t
          dsimp only
          have hcEq : parseContentF g1 m r1 L = parseContentF g2 m r1 L :=
            (ih g1 (by omega)).2.2.1 g2 m r1 L (by omega) (by omega)
          rw [hcEq]
          cases hc : parseContentF g2 m r1 L with
          | error e => rfl
          | ok q =>
            obtain ⟨a2, r2⟩ := q
            dsimp only
            obtain ⟨hc1, hc2⟩ := parseContentF_shrink hc
            simp only at hc1 hc2
            exact (ih g1 (by omega)).2.1 g2 (pre ++ a2 :: post) r2 budget
              (pb + L) (pa + 1) (by omega) (by omega)
        | none =>
          dsimp only
          by_cases hL : L > 8
          · rw [if_pos hL, if_pos hL]
            cases hre : readExact r1 (L - 8) with
            | error e => rfl
            | ok q =>
              obtain ⟨bs, r2⟩ := q
              dsimp only
              obtain ⟨h2d, h2e, -, -⟩ := readExact_ok hre
              have l2 : r2.data.length = r1.data.length - (L - 8) := by
                rw [h2d]; simp [List.length_drop]
              exact (ih g1 (by omega)).2.1 g2 atoms r2 budget (pb + L) pa
                (by omega) (by omega)
          · rw [if_neg hL, if_neg hL]
            exact (ih g1 (by omega)).2.1 g2 atoms r1 budget (pb + L) pa
              (by omega) (by omega)
    · rw [if_neg hg, if_neg hg]
  · -- parseContentF
    intro f2 a r length h1 h2
    obtain ⟨g1, rfl⟩ : ∃ g, f1 = g + 1 := ⟨f1 - 1, by omega⟩
    obtain ⟨g2, rfl⟩ : ∃ g, f2 = g + 1 := ⟨f2 - 1, by omega⟩
    rw [parseContentF_succ, parseContentF_succ]
    by_cases hL : length > 8
    · rw [if_pos hL, if_pos hL]
      cases ho : (if a.offset ≠ 0 then readExact r a.offset else .ok ([], r)) with
      | error e => rfl
      | ok q =>
        obtain ⟨bs, r1⟩ := q
        dsimp only
        have hr1 : r1.data.length ≤ r.data.length := by
          by_cases hz : a.offset ≠ 0
          · rw [if_pos hz] at ho
            obtain ⟨hd1, -, -, -⟩ := readExact_ok ho
            rw [hd1]; simp [List.length_drop]
          · rw [if_neg hz] at ho; cases ho; exact le_refl _
        have hkEq : contentParseF g1 a.content r1 (length - 8)
            = contentParseF g2 a.content r1 (length - 8) :=
          (ih g1 (by omega)).2.2.2 g2 a.content r1 (length - 8)
            (by omega) (by omega)
        rw [hkEq]
    · rw [if_neg hL, if_neg hL]
  · -- contentParseF
    intro f2 c r length h1 h2
    obtain ⟨g1, rfl⟩ : ∃ g, f1 = g + 1 := ⟨f1 - 1, by omega⟩
    obtain ⟨g2, rfl⟩ : ∃ g, f2 = g + 1 := ⟨f2 - 1, by omega⟩
    cases c with
    | atoms children =>
      rw [contentParseF_succ, contentParseF_succ]
      dsimp only
      have hEq : parseAtomsLoopF g1 children r length 0 0
          = parseAtomsLoopF g2 children r length 0 0 :=
        (ih g1 (by omega)).2.1 g2 children r length 0 0 (by omega) (by omega)
      rw [hEq]
    | rawData d => rw [contentParseF_succ, contentParseF_succ]
    | typedData d => rw [contentParseF_succ, contentParseF_succ]
    | empty => rw [contentParseF_succ, contentParseF_succ]

theorem parseLoopF_irrel {f1 f2 : Nat} {a : Atom} {r : Reader}
    (h1 : r.data.length < f1) (h2 : r.data.length < f2) :
    parseLoopF f1 a r = parseLoopF f2 a r :=
  (fuelIrrelAll f1).1 f2 a r h1 h2

theorem parseAtomsLoopF_irrel {f1 f2 : Nat} {atoms : List Atom} {r : Reader}
    {budget pb pa : Nat} (h1 : r.data.length < f1) (h2 : r.data.length < f2) :
    parseAtomsLoopF f1 atoms r budget pb pa = parseAtomsLoopF f2 atoms r budget pb pa :=
  (fuelIrrelAll f1).2.1 f2 atoms r budget pb pa h1 h2

theorem parseContentF_irrel {f1 f2 : Nat} {a : Atom} {r : Reader} {length : Nat}
    (h1 : r.data.length + 3 ≤ f1) (h2 : r.data.length + 3 ≤ f2) :
    parseContentF f1 a r length = parseContentF f2 a r length :=
  (fuelIrrelAll f1).2.2.1 f2 a r length h1 h2

theorem splitAtMatch_cons_match {a : Atom} {rest : List Atom} {h : List Nat}
    (hm : h = a.head) : splitAtMatch (a :: rest) h = some ([], a, rest) := by
  rw [splitAtMatch, if_pos hm]

theorem splitAtMatch_mk (pre : List Atom) (a : Atom) (rest : List Atom)
    (h : List Nat) (hpre : ∀ t ∈ pre, t.head ≠ h) (hm : a.head = h) :
    splitAtMatch (pre ++ a :: rest) h = some (pre, a, rest) := by
  induction pre with
  | nil => exact splitAtMatch_cons_match hm.symm
  | cons p ps ihp =>
    rw [List.cons_append, splitAtMatch,
      if_neg (fun hc => hpre p (List.mem_cons_self p ps) hc.symm)]
    rw [ihp (fun t ht => hpre t (List.mem_cons_of_mem p ht))]

theorem splitAtMatch_none (l : List Atom) (h : List Nat)
    (hl : ∀ t ∈ l, t.head ≠ h) : splitAtMatch l h = none := by
  induction l with
  | nil => rfl
  | cons p ps ihp =>
    rw [splitAtMatch, if_neg (fun hc => hl p (List.mem_cons_self p ps) hc.symm)]
    rw [ihp (fun t ht => hl t (List.mem_cons_of_mem p ht))]

theorem splitAtMatch_some {l : List Atom} {h : List Nat}
    {pre : List Atom} {m : Atom} {post : List Atom}
    (hs : splitAtMatch l h = some (pre, m, post)) :
    l = pre ++ m :: post ∧ m.head = h := by
  induction l generalizing pre with
  | nil => cases hs
  | cons p ps ihp =>
    rw [splitAtMatch] at hs
    by_cases hm : h = p.head
    · rw [if_pos hm] at hs
      cases hs
      exact ⟨rfl, hm.symm⟩
    · rw [if_neg hm] at hs
      cases hss : splitAtMatch ps h with
      | none => rw [hss] at hs; cases hs
      | some t =>
        obtain ⟨pre2, m2, post2⟩ := t
        rw [hss] at hs
        dsimp only at hs
        cases hs
        obtain ⟨he, hmh⟩ := ihp hss
        exact ⟨by rw [List.cons_append, ← he], hmh⟩

theorem frame_length {h : List Nat} (body : List Nat) (hh : h.length = 4) :
    (frame h body).length = 8 + body.length := by
  simp [frame, lenBytes, hh]; omega

theorem frame_append_assoc (h body s : List Nat) :
    frame h body ++ s = lenBytes (8 + body.length) ++ (h ++ (body ++ s)) := by
  simp [frame, List.append_assoc]

theorem dataLike_fields {a : Atom} (hd : dataLike a = true) :
    a.offset = 0 ∧ Content.variantIdx a.content ≠ 3 := by
  unfold dataLike at hd
  simp only [Bool.and_eq_true, beq_iff_eq, bne_iff_ne, ne_eq] at hd
  exact ⟨hd.1, hd.2⟩

theorem parsedDataAtom_head (a : Atom) (seg : List Nat) :
    (parsedDataAtom a seg).head = a.head := by
  obtain ⟨ah, ao, ac⟩ := a
  unfold parsedDataAtom
  by_cases hs : seg = []
  · rw [if_pos hs]; rfl
  · rw [if_neg hs]
    simp only [Atom.content_mk]
    cases ac <;> rfl

theorem dataLike_parsedDataAtom {a : Atom} (hd : dataLike a = true)
    (seg : List Nat) : dataLike (parsedDataAtom a seg) = true := by
  obtain ⟨ah, ao, ac⟩ := a
  obtain ⟨ho, hv⟩ := dataLike_fields hd
  simp only [Atom.offset_mk] at ho
  subst ho
  unfold parsedDataAtom
  by_cases hs : seg = []
  · rw [if_pos hs]
    simp [dataLike, Content.variantIdx]
  · rw [if_neg hs]
    simp only [Atom.content_mk] at hv ⊢
    cases ac <;> simp_all [dataLike, Content.variantIdx]

/-- `parse_content` on a data-like template (offset 0, non-`Atoms` content)
whose framed body is `seg`: consumption is exactly the declared `length - 8`
bytes, and the result is `parsedDataAtom`. -/
theorem parseContentF_dataLike {f : Nat} (hf : 2 ≤ f) {a : Atom}
    (hd : dataLike a = true) (seg tail : List Nat) (e : IoErrKind) :
    parseContentF f a ⟨seg ++ tail, e⟩ (8 + seg.length)
      = .ok (parsedDataAtom a seg, ⟨tail, e⟩) := by
  obtain ⟨ah, ao, ac⟩ := a
  obtain ⟨ho, hv⟩ := dataLike_fields hd
  simp only [Atom.offset_mk] at ho
  simp only [Atom.content_mk] at hv
  subst ho
  obtain ⟨g, rfl⟩ : ∃ g, f = g + 1 + 1 := ⟨f - 2, by omega⟩
  rw [parseContentF_succ]
  by_cases hs : seg = []
  · subst hs
    rw [if_neg (by simp)]
    rw [parsedDataAtom, if_pos rfl]
    simp
  · have hlen : 0 < seg.length := List.length_pos.mpr hs
    rw [if_pos (by omega)]
    simp only [Atom.offset_mk, ne_eq, not_true_eq_false, if_neg,
      Atom.content_mk, Atom.head_mk]
    rw [if_neg (by simp)]
    dsimp only
    have hsub : 8 + seg.length - 8 = seg.length := by omega
    rw [hsub]
    rw [parsedDataAtom, if_neg hs]
    simp only [Atom.content_mk, Atom.head_mk, Atom.offset_mk]
    cases ac with
    | empty =>
      rw [contentParseF_succ]
      dsimp only
      rw [readExact_append_len seg tail e seg.length rfl]
    | rawData d =>
      rw [contentParseF_succ]
      dsimp only
      unfold Data.parse
      rw [readExact_append_len seg tail e seg.length rfl]
      dsimp only
      cases d <;> rfl
    | typedData d =>
      rw [contentParseF_succ]
      dsimp only
      unfold Data.parse
      rw [readExact_append_len seg tail e seg.length rfl]
      dsimp only
      cases d <;> rfl
    | atoms children =>
      exfalso
      simp [Content.variantIdx] at hv

/-- One non-matching framed atom at the front of the stream is skipped
byte-exactly by `Atom::parse`: the result is that of parsing the remainder. -/
theorem parse_skipFrame (t : Atom) (h body s : List Nat) (e : IoErrKind)
    (hh : h.length = 4) (hL : 8 + body.length < 4294967296)
    (hne : h ≠ t.head) :
    Atom.parse t ⟨frame h body ++ s, e⟩ = Atom.parse t ⟨s, e⟩ := by
  unfold Atom.parse
  have hflen : (frame h body ++ s).length = 8 + body.length + s.length := by
    simp [frame_length body hh]
  have e1 : parseLoopF ((⟨frame h body ++ s, e⟩ : Reader).data.length + 1) t
      ⟨frame h body ++ s, e⟩
      = parseLoopF (8 + body.length + s.length + 1) t ⟨frame h body ++ s, e⟩ :=
    parseLoopF_irrel
      (by show (frame h body ++ s).length < (frame h body ++ s).length + 1; omega)
      (by show (frame h body ++ s).length < _; rw [hflen]; omega)
  rw [e1, frame_append_assoc, parseLoopF_succ,
    parse_head_frame (8 + body.length) h (body ++ s) e hL hh]
  dsimp only
  rw [if_neg hne]
  by_cases hb : body = []
  · subst hb
    rw [if_neg (by simp)]
    simp only [List.nil_append]
    exact parseLoopF_irrel (by show s.length < _; simp) (by show s.length < _; omega)
  · have hlen : 0 < body.length := List.length_pos.mpr hb
    rw [if_pos (by omega)]
    have hsub : 8 + body.length - 8 = body.length := by omega
    rw [hsub, readExact_append_len body s e body.length rfl]
    dsimp only
    exact parseLoopF_irrel (by show s.length < _; omega) (by show s.length < _; omega)

/-! ### Identifier model (`src/src/atom/ident.rs`) -/

/-- `Fourcc(pub [u8; 4])`: a 4-byte atom identifier (the `[u8; 4]` array is
modelled as a 4-element byte list). -/
structure Fourcc where
  val : List Nat
deriving DecidableEq, Repr

/-- `FreeformIdent`: the mean and name strings of a freeform (`----`)
identifier.  Equality is the derived structural one. -/
structure FreeformIdent where
  mean : String
  name : String
deriving DecidableEq, Repr

/-- `DataIdent`: either a standard fourcc identifier or an owned freeform
mean/name pair. -/
inductive DataIdent where
  | fourcc (f : Fourcc) : DataIdent
  | freeform (mean : String) (name : String) : DataIdent
deriving DecidableEq, Repr

/-- `impl PartialEq<DataIdent> for Fourcc`: equal to a `Fourcc` variant with
the same bytes, never equal to a `Freeform` variant. -/
def Fourcc.eqData (self : Fourcc) (other : DataIdent) : Bool :=
  match other with
  | .fourcc f => self == f
  | .freeform _ _ => false

/-- `impl PartialEq<DataIdent> for FreeformIdent`: never equal to a `Fourcc`
variant, equal to a `Freeform` variant iff both strings agree. -/
def FreeformIdent.eqData (self : FreeformIdent) (other : DataIdent) : Bool :=
  match other with
  | .fourcc _ => false
  | .freeform mean name => self.mean == mean && self.name == name

/-- C10: identifiers are equal iff they are the same variant with the same
payload: a fourcc never equals a freeform identifier regardless of byte
content (in either comparison direction), a fourcc comparison reduces to
byte equality, a freeform comparison reduces to equality of the (mean, name)
pairs, and two freeform identifiers are equal iff their mean and name
strings agree. -/
theorem ident_equality_characterization :
    (∀ (f : Fourcc) (mean name : String),
      Fourcc.eqData f (.freeform mean name) = false) ∧
    (∀ (fi : FreeformIdent) (g : Fourcc),
      FreeformIdent.eqData fi (.fourcc g) = false) ∧
    (∀ (f g : Fourcc), Fourcc.eqData f (.fourcc g) = (f == g)) ∧
    (∀ (m1 n1 m2 n2 : String),
      FreeformIdent.eqData ⟨m1, n1⟩ (.freeform m2 n2) = (m1 == m2 && n1 == n2)) ∧
    (∀ (m1 n1 m2 n2 : String),
      FreeformIdent.mk m1 n1 = FreeformIdent.mk m2 n2 ↔ m1 = m2 ∧ n1 = n2) := by
  refine ⟨fun f m n => rfl, fun fi g => rfl, fun f g => rfl,
    fun m1 n1 m2 n2 => rfl, ?_⟩
  intro m1 n1 m2 n2
  constructor
  · intro hEq; cases hEq; exact ⟨rfl, rfl⟩
  · rintro ⟨rfl, rfl⟩; rfl

/-! ### Claim theorems for the atom engine -/

/-- C2: for every atom encountered by `Atom::parse` whose head does not
match the template's head and whose declared length `8 + body.length`
exceeds 8, the engine consumes exactly `length - 8` bytes of body after the
8-byte head and never recurses into that atom: parsing the stream framing
the non-matching atom in front of a remainder is the same as parsing the
remainder, so the scan continues with the next sibling and the skipped body
bytes have no influence. -/
theorem parse_skips_nonmatching_exactly (t : Atom) (h body s : List Nat)
    (e : IoErrKind) (hh : h.length = 4) (_hb : 0 < body.length)
    (hL : 8 + body.length < 4294967296) (hne : h ≠ t.head) :
    Atom.parse t ⟨frame h body ++ s, e⟩ = Atom.parse t ⟨s, e⟩ :=
  parse_skipFrame t h body s e hh hL hne

theorem parse_skips_nonmatching_exactly_witness :
    Atom.parse (.mk [1, 2, 3, 4] 0 .empty)
        ⟨frame [9, 9, 9, 9] [5, 5] ++ [7, 7], .unexpectedEof⟩
      = Atom.parse (.mk [1, 2, 3, 4] 0 .empty) ⟨[7, 7], .unexpectedEof⟩ :=
  parse_skips_nonmatching_exactly (.mk [1, 2, 3, 4] 0 .empty) [9, 9, 9, 9]
    [5, 5] [7, 7] .unexpectedEof (by decide) (by decide) (by decide) (by decide)

/-- C3: a call of `Atom::parse` that reaches end-of-stream while still
scanning for the wanted atom (any sequence of non-matching framed siblings
followed by fewer than 8 remaining bytes) yields `AtomNotFound` carrying the
wanted head when the stream ends cleanly (`UnexpectedEof`), and propagates
every other underlying I/O read failure unchanged as an `Io` error. -/
theorem parse_eof_atom_not_found (t : Atom) (es : List (List Nat × List Nat))
    (tail : List Nat) (e : IoErrKind)
    (hes : ∀ en ∈ es, en.1.length = 4 ∧ 8 + en.2.length < 4294967296 ∧
      en.1 ≠ t.head)
    (htail : tail.length < 8) :
    Atom.parse t ⟨frames es ++ tail, e⟩
      = .error (if e = .unexpectedEof then .atomNotFound t.head
          else .ioErr e) := by
  induction es with
  | nil =>
    simp only [frames, List.nil_append]
    unfold Atom.parse
    rw [parseLoopF_succ, parse_head_short htail]
    dsimp only
    by_cases he : e = .unexpectedEof
    · rw [if_pos he, if_pos he]
    · rw [if_neg he, if_neg he]
  | cons en es ihe =>
    obtain ⟨h4, hlt, hne⟩ := hes en (List.mem_cons_self _ _)
    have hsplit : frames (en :: es) ++ tail
        = frame en.1 en.2 ++ (frames es ++ tail) := by
      simp [frames, List.append_assoc]
    rw [hsplit, parse_skipFrame t en.1 en.2 (frames es ++ tail) e h4 hlt hne]
    exact ihe (fun x hx => hes x (List.mem_cons_of_mem _ hx))

theorem parse_eof_atom_not_found_witness :
    Atom.parse (.mk [1, 2, 3, 4] 0 .empty)
        ⟨frames [([9, 9, 9, 9], [5])] ++ [1, 2], .unexpectedEof⟩
      = .error (.atomNotFound [1, 2, 3, 4]) ∧
    Atom.parse (.mk [1, 2, 3, 4] 0 .empty)
        ⟨frames [([9, 9, 9, 9], [5])] ++ [1, 2], .otherKind 3⟩
      = .error (.ioErr (.otherKind 3)) := by
  constructor
  · have hthm := parse_eof_atom_not_found (.mk [1, 2, 3, 4] 0 .empty)
      [([9, 9, 9, 9], [5])] [1, 2] .unexpectedEof (by decide) (by decide)
    simpa using hthm
  · have hthm := parse_eof_atom_not_found (.mk [1, 2, 3, 4] 0 .empty)
      [([9, 9, 9, 9], [5])] [1, 2] (.otherKind 3) (by decide) (by decide)
    simpa using hthm

/-- C7 counterexample: an unskippable oversized atom (declared length 100,
only 3 body bytes before end of stream) does not produce any dedicated
bounds error: the parse fails with the propagated I/O error of the failed
body read (`Io(UnexpectedEof)`), and the engine's error type
(`Io`/`AtomNotFound`/`NoTag`, from the source) has no `BoundsExceeded`
variant at all. -/
theorem oversized_atom_no_bounds_error_cex :
    Atom.parse (.mk [1, 2, 3, 4] 0 .empty)
        ⟨lenBytes 100 ++ [9, 9, 9, 9] ++ [1, 2, 3], .unexpectedEof⟩
      = .error (.ioErr .unexpectedEof) := by rfl

/-- C7 (amended): an atom whose declared length exceeds the remaining
stream is not detected by any bounds check: both `Atom::parse` and
`Atom::parse_atoms` attempt the full body skip, and the failed read's I/O
error is propagated unchanged (`Io`, not a dedicated bounds error), aborting
the parse. -/
theorem oversized_atom_io_error (t : Atom) (atoms : List Atom)
    (h s : List Nat) (L : Nat) (e : IoErrKind) (budget : Nat)
    (hh : h.length = 4) (hL8 : 8 < L) (hL : L < 4294967296)
    (hshort : s.length < L - 8) (hne : h ≠ t.head)
    (hnomatch : splitAtMatch atoms h = none)
    (hbudget : 0 < budget) (hatoms : atoms ≠ []) :
    Atom.parse t ⟨lenBytes L ++ h ++ s, e⟩ = .error (.ioErr e) ∧
    Atom.parse_atoms atoms ⟨lenBytes L ++ h ++ s, e⟩ budget
      = .error (.ioErr e) := by
  have hassoc : lenBytes L ++ h ++ s = lenBytes L ++ (h ++ s) :=
    List.append_assoc _ _ _
  constructor
  · unfold Atom.parse
    rw [hassoc, parseLoopF_succ, parse_head_frame L h s e hL hh]
    dsimp only
    rw [if_neg hne, if_pos hL8, readExact_short ⟨s, e⟩ (L - 8) hshort]
  · unfold Atom.parse_atoms
    rw [hassoc, parseAtomsLoopF_succ,
      if_pos ⟨hbudget, List.length_pos.mpr hatoms⟩,
      parse_head_frame L h s e hL hh]
    dsimp only
    rw [hnomatch]
    dsimp only
    rw [if_pos hL8, readExact_short ⟨s, e⟩ (L - 8) hshort]

theorem oversized_atom_io_error_witness :
    Atom.parse (.mk [1, 2, 3, 4] 0 .empty)
        ⟨lenBytes 100 ++ [9, 9, 9, 9] ++ [1, 2, 3], .otherKind 7⟩
      = .error (.ioErr (.otherKind 7)) ∧
    Atom.parse_atoms [.mk [1, 2, 3, 4] 0 .empty]
        ⟨lenBytes 100 ++ [9, 9, 9, 9] ++ [1, 2, 3], .otherKind 7⟩ 50
      = .error (.ioErr (.otherKind 7)) :=
  oversized_atom_io_error (.mk [1, 2, 3, 4] 0 .empty)
    [.mk [1, 2, 3, 4] 0 .empty] [9, 9, 9, 9] [1, 2, 3] 100 (.otherKind 7) 50
    (by decide) (by decide) (by decide) (by decide) (by decide) (by rfl)
    (by decide) (List.cons_ne_nil _ _)

theorem contentParseF_variant {f : Nat} {c : Content} {r : Reader} {L : Nat}
    {c2 : Content} {r2 : Reader}
    (h : contentParseF f c r L = .ok (c2, r2)) :
    c2.variantIdx = c.variantIdx := by
  cases f with
  | zero => rw [contentParseF_zero] at h; exact absurd h (by simp)
  | succ g =>
    cases c with
    | atoms children =>
      rw [contentParseF_succ] at h
      dsimp only at h
      cases hp : parseAtomsLoopF g children r L 0 0 with
      | error e => rw [hp] at h; exact absurd h (by simp)
      | ok q =>
        obtain ⟨cs, r1⟩ := q
        rw [hp] at h; dsimp only at h
        cases h; rfl
    | rawData d =>
      rw [contentParseF_succ] at h
      dsimp only at h
      cases hp : Data.parse d r L with
      | error e => rw [hp] at h; exact absurd h (by simp)
      | ok q =>
        obtain ⟨d2, r1⟩ := q
        rw [hp] at h; dsimp only at h
        cases h; rfl
    | typedData d =>
      rw [contentParseF_succ] at h
      dsimp only at h
      cases hp : Data.parse d r L with
      | error e => rw [hp] at h; exact absurd h (by simp)
      | ok q =>
        obtain ⟨d2, r1⟩ := q
        rw [hp] at h; dsimp only at h
        cases h; rfl
    | empty =>
      rw [contentParseF_succ] at h
      dsimp only at h
      cases hp : readExact r L with
      | error e => rw [hp] at h; exact absurd h (by simp)
      | ok q =>
        obtain ⟨bs, r1⟩ := q
        rw [hp] at h; dsimp only at h
        cases h; rfl

/-- C6 counterexample: `Atom::parse_content` on a template whose content
variant is `TypedData`, for an atom of declared length 8, replaces the
content by `Empty` — the variant chosen when the template was built is not
preserved. -/
theorem parse_content_variant_reset_cex :
    Atom.parse_content (.mk [1, 2, 3, 4] 0 (.typedData .unparsed))
        ⟨[], .unexpectedEof⟩ 8
      = .ok (.mk [1, 2, 3, 4] 0 .empty, ⟨[], .unexpectedEof⟩) ∧
    Content.variantIdx .empty ≠ Content.variantIdx (.typedData .unparsed) :=
  ⟨rfl, by decide⟩

/-- C6 (amended): the content variant chosen when the template was built is
preserved by every successful `parse_content` of an atom whose declared
length exceeds 8 — only the payload inside the variant is filled in; when
the declared length is at most 8, the content is replaced by `Empty`
(regardless of the template's variant). -/
theorem parse_content_variant_preserved (a : Atom) (r : Reader) (L : Nat) :
    (8 < L → ∀ a2 r2, Atom.parse_content a r L = .ok (a2, r2) →
      a2.content.variantIdx = a.content.variantIdx) ∧
    (L ≤ 8 → Atom.parse_content a r L = .ok (.mk a.head a.offset .empty, r)) := by
  constructor
  · intro hL a2 r2 hok
    unfold Atom.parse_content at hok
    rw [parseContentF_succ, if_pos hL] at hok
    cases ho : (if a.offset ≠ 0 then readExact r a.offset else .ok ([], r)) with
    | error e => rw [ho] at hok; exact absurd hok (by simp)
    | ok q =>
      obtain ⟨bs, r1⟩ := q
      rw [ho] at hok; dsimp only at hok
      cases hk : contentParseF (r.data.length + 2) a.content r1 (L - 8) with
      | error e => rw [hk] at hok; exact absurd hok (by simp)
      | ok q2 =>
        obtain ⟨c2, r2x⟩ := q2
        rw [hk] at hok; dsimp only at hok
        cases hok
        simpa using contentParseF_variant hk
  · intro hL
    unfold Atom.parse_content
    rw [parseContentF_succ, if_neg (by omega)]

theorem parse_content_variant_preserved_witness :
    Atom.parse_content (.mk [1, 2, 3, 4] 0 (.typedData .unparsed))
        ⟨[5, 5], .unexpectedEof⟩ 10
      = .ok (.mk [1, 2, 3, 4] 0 (.typedData (.bytes [5, 5])), ⟨[], .unexpectedEof⟩) ∧
    Content.variantIdx ((Atom.mk [1, 2, 3, 4] 0
        (.typedData (.bytes [5, 5]))).content)
      = Content.variantIdx ((Atom.mk [1, 2, 3, 4] 0 (.typedData .unparsed)).content) ∧
    Atom.parse_content (.mk [1, 2, 3, 4] 0 (.typedData .unparsed))
        ⟨[], .unexpectedEof⟩ 7
      = .ok (.mk [1, 2, 3, 4] 0 .empty, ⟨[], .unexpectedEof⟩) := by
  refine ⟨by rfl, ?_, ?_⟩
  · exact (parse_content_variant_preserved
      (.mk [1, 2, 3, 4] 0 (.typedData .unparsed)) ⟨[5, 5], .unexpectedEof⟩ 10).1
      (by decide) _ _ (by rfl)
  · exact (parse_content_variant_preserved
      (.mk [1, 2, 3, 4] 0 (.typedData .unparsed)) ⟨[], .unexpectedEof⟩ 7).2
      (by decide)

/-- C5 counterexample: for a template with offset 4 and declared length 24,
`parse_content` hands 16 bytes (`length - 8`) to the data collaborator and
leaves 4 of the 24 stream bytes unread — not the claimed
`length - 8 - offset = 12` bytes. -/
theorem parse_content_offset_budget_cex :
    Atom.parse_content (.mk [1, 2, 3, 4] 4 (.typedData .unparsed))
        ⟨List.replicate 24 0, .unexpectedEof⟩ 24
      = .ok (.mk [1, 2, 3, 4] 4 (.typedData (.bytes (List.replicate 16 0))),
          ⟨List.replicate 4 0, .unexpectedEof⟩) ∧
    (16 : Nat) ≠ 24 - 8 - 4 :=
  ⟨rfl, by decide⟩

/-- C5 (amended): for declared length above 8, `parse_content` first skips
exactly the template's offset bytes and then dispatches on the content
variant with the byte budget `length - 8` — the offset is not deducted: a
`TypedData`/`RawData` content hands exactly `length - 8` bytes to the data
collaborator, and an `Atoms` content recurses via `parse_atoms` with budget
`length - 8`. -/
theorem parse_content_dispatch_budget :
    (∀ (ah : List Nat) (o : Nat) (d : Data) (pad seg tail : List Nat)
      (e : IoErrKind), pad.length = o → seg ≠ [] →
      Atom.parse_content (.mk ah o (.typedData d)) ⟨pad ++ (seg ++ tail), e⟩
          (8 + seg.length)
        = .ok (.mk ah o (.typedData (Data.parsed d seg)), ⟨tail, e⟩)) ∧
    (∀ (ah : List Nat) (o : Nat) (d : Data) (pad seg tail : List Nat)
      (e : IoErrKind), pad.length = o → seg ≠ [] →
      Atom.parse_content (.mk ah o (.rawData d)) ⟨pad ++ (seg ++ tail), e⟩
          (8 + seg.length)
        = .ok (.mk ah o (.rawData (Data.parsed d seg)), ⟨tail, e⟩)) ∧
    (∀ (ah : List Nat) (o : Nat) (children : List Atom) (pad rest : List Nat)
      (e : IoErrKind) (L : Nat), pad.length = o → 8 < L →
      Atom.parse_content (.mk ah o (.atoms children)) ⟨pad ++ rest, e⟩ L
        = (match Atom.parse_atoms children ⟨rest, e⟩ (L - 8) with
            | .ok (cs, r2) => .ok (.mk ah o (.atoms cs), r2)
            | .error e2 => .error e2)) := by
  refine ⟨?_, ?_, ?_⟩
  · intro ah o d pad seg tail e hpad hseg
    have hlen : 0 < seg.length := List.length_pos.mpr hseg
    unfold Atom.parse_content
    rw [parseContentF_succ, if_pos (by omega)]
    simp only [Atom.offset_mk, Atom.content_mk, Atom.head_mk]
    have hsub : 8 + seg.length - 8 = seg.length := by omega
    by_cases ho : o = 0
    · subst ho
      obtain rfl : pad = ([] : List Nat) := List.length_eq_zero.mp hpad
      rw [if_neg (by simp)]
      dsimp only
      simp only [List.nil_append]
      rw [hsub]
      obtain ⟨g, hg⟩ : ∃ g, (seg ++ tail).length + 2 = g + 1 :=
        ⟨(seg ++ tail).length + 1, by omega⟩
      rw [hg, contentParseF_succ]
      dsimp only
      unfold Data.parse
      rw [readExact_append_len seg tail e seg.length rfl]
      dsimp only
      cases d <;> rfl
    · rw [if_pos ho, readExact_append_len pad (seg ++ tail) e o hpad.symm]
      dsimp only
      rw [hsub]
      obtain ⟨g, hg⟩ : ∃ g, (pad ++ (seg ++ tail)).length + 2 = g + 1 :=
        ⟨(pad ++ (seg ++ tail)).length + 1, by omega⟩
      rw [hg, contentParseF_succ]
      dsimp only
      unfold Data.parse
      rw [readExact_append_len seg tail e seg.length rfl]
      dsimp only
      cases d <;> rfl
  · intro ah o d pad seg tail e hpad hseg
    have hlen : 0 < seg.length := List.length_pos.mpr hseg
    unfold Atom.parse_content
    rw [parseContentF_succ, if_pos (by omega)]
    simp only [Atom.offset_mk, Atom.content_mk, Atom.head_mk]
    have hsub : 8 + seg.length - 8 = seg.length := by omega
    by_cases ho : o = 0
    · subst ho
      obtain rfl : pad = ([] : List Nat) := List.length_eq_zero.mp hpad
      rw [if_neg (by simp)]
      dsimp only
      simp only [List.nil_append]
      rw [hsub]
      obtain ⟨g, hg⟩ : ∃ g, (seg ++ tail).length + 2 = g + 1 :=
        ⟨(seg ++ tail).length + 1, by omega⟩
      rw [hg, contentParseF_succ]
      dsimp only
      unfold Data.parse
      rw [readExact_append_len seg tail e seg.length rfl]
      dsimp only
      cases d <;> rfl
    · rw [if_pos ho, readExact_append_len pad (seg ++ tail) e o hpad.symm]
      dsimp only
      rw [hsub]
      obtain ⟨g, hg⟩ : ∃ g, (pad ++ (seg ++ tail)).length + 2 = g + 1 :=
        ⟨(pad ++ (seg ++ tail)).length + 1, by omega⟩
      rw [hg, contentParseF_succ]
      dsimp only
      unfold Data.parse
      rw [readExact_append_len seg tail e seg.length rfl]
      dsimp only
      cases d <;> rfl
  · intro ah o children pad rest e L hpad hL8
    unfold Atom.parse_content Atom.parse_atoms
    rw [parseContentF_succ, if_pos hL8]
    simp only [Atom.offset_mk, Atom.content_mk, Atom.head_mk]
    by_cases ho : o = 0
    · subst ho
      obtain rfl : pad = ([] : List Nat) := List.length_eq_zero.mp hpad
      rw [if_neg (by simp)]
      dsimp only
      simp only [List.nil_append]
      obtain ⟨g, hg⟩ : ∃ g, rest.length + 2 = g + 1 := ⟨rest.length + 1, by omega⟩
      rw [hg, contentParseF_succ]
      dsimp only
      have hloop : parseAtomsLoopF g children ⟨rest, e⟩ (L - 8) 0 0
          = parseAtomsLoopF (rest.length + 1) children ⟨rest, e⟩ (L - 8) 0 0 :=
        parseAtomsLoopF_irrel (by show rest.length < g; omega)
          (by show rest.length < rest.length + 1; omega)
      rw [hloop]
      cases hp : parseAtomsLoopF (rest.length + 1) children ⟨rest, e⟩ (L - 8) 0 0 with
      | error e2 => rfl
      | ok q => obtain ⟨cs, r2⟩ := q; rfl
    · rw [if_pos ho, readExact_append_len pad rest e o hpad.symm]
      dsimp only
      obtain ⟨g, hg⟩ : ∃ g, (pad ++ rest).length + 2 = g + 1 :=
        ⟨(pad ++ rest).length + 1, by omega⟩
      rw [hg, contentParseF_succ]
      dsimp only
      have hloop : parseAtomsLoopF g children ⟨rest, e⟩ (L - 8) 0 0
          = parseAtomsLoopF (rest.length + 1) children ⟨rest, e⟩ (L - 8) 0 0 :=
        parseAtomsLoopF_irrel
          (by show rest.length < g; simp only [List.length_append] at hg; omega)
          (by show rest.length < rest.length + 1; omega)
      rw [hloop]
      cases hp : parseAtomsLoopF (rest.length + 1) children ⟨rest, e⟩ (L - 8) 0 0 with
      | error e2 => rfl
      | ok q => obtain ⟨cs, r2⟩ := q; rfl

theorem parse_content_dispatch_budget_witness :
    Atom.parse_content (.mk [1, 2, 3, 4] 4 (.typedData .unparsed))
        ⟨[0, 0, 0, 0] ++ ([7, 7] ++ [9]), .unexpectedEof⟩ 10
      = .ok (.mk [1, 2, 3, 4] 4 (.typedData (.bytes [7, 7])),
          ⟨[9], .unexpectedEof⟩) ∧
    Atom.parse_content (.mk [1, 2, 3, 4] 4 (.rawData .unparsed))
        ⟨[0, 0, 0, 0] ++ ([7, 7] ++ [9]), .unexpectedEof⟩ 10
      = .ok (.mk [1, 2, 3, 4] 4 (.rawData (.bytes [7, 7])),
          ⟨[9], .unexpectedEof⟩) ∧
    Atom.parse_content (.mk [1, 2, 3, 4] 4 (.atoms [])) ⟨[0, 0, 0, 0] ++ [9], .unexpectedEof⟩ 20
      = (match Atom.parse_atoms [] ⟨[9], .unexpectedEof⟩ 12 with
          | .ok (cs, r2) => .ok (.mk [1, 2, 3, 4] 4 (.atoms cs), r2)
          | .error e2 => .error e2) := by
  refine ⟨?_, ?_, ?_⟩
  · exact parse_content_dispatch_budget.1 [1, 2, 3, 4] 4 .unparsed [0, 0, 0, 0]
      [7, 7] [9] .unexpectedEof (by decide) (by decide)
  · exact parse_content_dispatch_budget.2.1 [1, 2, 3, 4] 4 .unparsed [0, 0, 0, 0]
      [7, 7] [9] .unexpectedEof (by decide) (by decide)
  · exact parse_content_dispatch_budget.2.2 [1, 2, 3, 4] 4 [] [0, 0, 0, 0]
      [9] .unexpectedEof 20 (by decide) (by decide)

/-- The multi-target scan over a well-framed sibling sequence whose declared
lengths exactly fill the remaining budget: the loop consumes an atom-aligned
prefix of the sequence (stopping early once the budget or the match count is
exhausted) and never touches the bytes behind the sequence. -/
theorem parseAtomsLoopF_frames :
    ∀ (es : List (List Nat × List Nat)) (f : Nat) (templates : List Atom)
      (pb pa budget : Nat) (rest : List Nat) (e : IoErrKind),
      (∀ en ∈ es, en.1.length = 4 ∧ 8 + en.2.length < 4294967296) →
      (∀ t ∈ templates, dataLike t = true) →
      pb + sumLens es = budget →
      (frames es ++ rest).length < f →
      ∃ k templates2,
        parseAtomsLoopF f templates ⟨frames es ++ rest, e⟩ budget pb pa
          = .ok (templates2, ⟨frames (es.drop k) ++ rest, e⟩) := by
  intro es
  induction es with
  | nil =>
    intro f templates pb pa budget rest e hes htpl hsum hf
    refine ⟨0, templates, ?_⟩
    obtain ⟨g, rfl⟩ : ∃ g, f = g + 1 := ⟨f - 1, by omega⟩
    rw [parseAtomsLoopF_succ,
      if_neg (by simp only [sumLens] at hsum; omega)]
    rfl
  | cons en es ihe =>
    obtain ⟨hn, bn⟩ := en
    intro f templates pb pa budget rest e hes htpl hsum hf
    obtain ⟨g, rfl⟩ : ∃ g, f = g + 1 := ⟨f - 1, by omega⟩
    by_cases hguard : pb < budget ∧ pa < templates.length
    · obtain ⟨h4, hlt⟩ := hes (hn, bn) (List.mem_cons_self _ _)
      simp only at h4 hlt
      have hstream : frames ((hn, bn) :: es) ++ rest
          = lenBytes (8 + bn.length) ++ (hn ++ (bn ++ (frames es ++ rest))) := by
        simp [frames, frame, List.append_assoc]
      have hflen : (frames ((hn, bn) :: es) ++ rest).length
          = 8 + bn.length + (frames es ++ rest).length := by
        simp only [frames, List.append_assoc, List.length_append,
          frame_length bn h4]
        try omega
      rw [parseAtomsLoopF_succ, if_pos hguard, hstream,
        parse_head_frame (8 + bn.length) hn (bn ++ (frames es ++ rest)) e hlt h4]
      dsimp only
      have hsum2 : (pb + (8 + bn.length)) + sumLens es = budget := by
        simp only [sumLens] at hsum; omega
      have hg2 : (frames es ++ rest).length < g := by omega
      cases hsplit : splitAtMatch templates hn with
      | some t3 =>
        obtain ⟨pre, m, post⟩ := t3
        dsimp only
        obtain ⟨hdecomp, hmhead⟩ := splitAtMatch_some hsplit
        have hm_mem : m ∈ templates := by
          rw [hdecomp]; exact List.mem_append_right pre (List.mem_cons_self m post)
        have hdl : dataLike m = true := htpl m hm_mem
        rw [parseContentF_dataLike (by omega) hdl bn (frames es ++ rest) e]
        dsimp only
        have htpl2 : ∀ t ∈ pre ++ parsedDataAtom m bn :: post, dataLike t = true := by
          intro t ht
          rcases List.mem_append.mp ht with hpre | hpost
          · exact htpl t (by rw [hdecomp]; exact List.mem_append_left _ hpre)
          · rcases List.mem_cons.mp hpost with hEq | hrest
            · rw [hEq]; exact dataLike_parsedDataAtom hdl bn
            · exact htpl t (by
                rw [hdecomp]
                exact List.mem_append_right _ (List.mem_cons_of_mem m hrest))
        obtain ⟨k, t2, hres⟩ := ihe g (pre ++ parsedDataAtom m bn :: post)
          (pb + (8 + bn.length)) (pa + 1) budget rest e
          (fun x hx => hes x (List.mem_cons_of_mem _ hx)) htpl2 hsum2 hg2
        exact ⟨k + 1, t2, hres⟩
      | none =>
        dsimp only
        by_cases hbn : bn = []
        · subst hbn
          rw [if_neg (by simp)]
          simp only [List.nil_append]
          obtain ⟨k, t2, hres⟩ := ihe g templates (pb + (8 + ([] : List Nat).length))
            pa budget rest e (fun x hx => hes x (List.mem_cons_of_mem _ hx))
            htpl (by simpa using hsum2) (by simpa using hg2)
          exact ⟨k + 1, t2, by simpa using hres⟩
        · have hbl : 0 < bn.length := List.length_pos.mpr hbn
          rw [if_pos (by omega)]
          have hsub : 8 + bn.length - 8 = bn.length := by omega
          rw [hsub, readExact_append_len bn (frames es ++ rest) e bn.length rfl]
          dsimp only
          obtain ⟨k, t2, hres⟩ := ihe g templates (pb + (8 + bn.length)) pa
            budget rest e (fun x hx => hes x (List.mem_cons_of_mem _ hx))
            htpl hsum2 hg2
          exact ⟨k + 1, t2, hres⟩
    · refine ⟨0, templates, ?_⟩
      rw [parseAtomsLoopF_succ, if_neg hguard]
      rfl

/-- C1 counterexample: `parse_atoms` with byte budget 10 over a stream whose
first atom declares length 100 consumes all 100 bytes of that atom — the
budget is only checked before each atom head, so bytes far beyond the
declared parent budget are touched (here the 100-byte atom is consumed in
full, leaving only the 3 sentinel bytes). -/
theorem parse_atoms_budget_overrun_cex :
    Atom.parse_atoms [.mk [1, 2, 3, 4] 0 (.typedData .unparsed)]
        ⟨lenBytes 100 ++ [9, 9, 9, 9] ++ (List.replicate 92 7 ++ [9, 9, 9]),
          .unexpectedEof⟩ 10
      = .ok ([.mk [1, 2, 3, 4] 0 (.typedData .unparsed)],
          ⟨[9, 9, 9], .unexpectedEof⟩) ∧
    ¬(100 ≤ 10) :=
  ⟨by rfl, by decide⟩

/-- C1 (amended): the `parse_atoms` scan loop is bounded by its two stopping
conditions — it reads a sibling head only while the cumulative declared
bytes stay under the budget and the matched count stays under the number of
templates (with an empty template list or a zero budget nothing is
consumed), and on a well-framed sibling sequence whose declared lengths
exactly fill the budget it consumes an atom-aligned prefix of the sequence,
stopping early once every template has been matched and never touching any
byte beyond the declared parent budget.  (Unqualified, the original claim
fails: an atom whose declared length overruns the budget is still consumed
in full, see the counterexample.) -/
theorem parse_atoms_budget_bounded :
    (∀ (es : List (List Nat × List Nat)) (templates : List Atom)
      (budget : Nat) (rest : List Nat) (e : IoErrKind),
      (∀ en ∈ es, en.1.length = 4 ∧ 8 + en.2.length < 4294967296) →
      (∀ t ∈ templates, dataLike t = true) →
      sumLens es = budget →
      ∃ k templates2,
        Atom.parse_atoms templates ⟨frames es ++ rest, e⟩ budget
          = .ok (templates2, ⟨frames (es.drop k) ++ rest, e⟩)) ∧
    (∀ (templates : List Atom) (r : Reader) (budget : Nat),
      budget = 0 ∨ templates = [] →
      Atom.parse_atoms templates r budget = .ok (templates, r)) := by
  constructor
  · intro es templates budget rest e hes htpl hsum
    exact parseAtomsLoopF_frames es _ templates 0 0 budget rest e hes htpl
      (by omega)
      (by show (frames es ++ rest).length < (frames es ++ rest).length + 1; omega)
  · intro templates r budget hcond
    unfold Atom.parse_atoms
    rw [parseAtomsLoopF_succ]
    rcases hcond with hz | hz
    · rw [if_neg (by omega)]
    · subst hz
      rw [if_neg (by simp)]

theorem parse_atoms_budget_bounded_witness :
    (∃ k templates2,
      Atom.parse_atoms [.mk [1, 2, 3, 4] 0 (.typedData .unparsed)]
          ⟨frames [([9, 9, 9, 9], [5]), ([1, 2, 3, 4], [7, 7])] ++ [3, 3],
            .unexpectedEof⟩ 19
        = .ok (templates2,
            ⟨frames (List.drop k [([9, 9, 9, 9], [5]), ([1, 2, 3, 4], [7, 7])])
              ++ [3, 3], .unexpectedEof⟩)) ∧
    Atom.parse_atoms [.mk [1, 2, 3, 4] 0 (.typedData .unparsed)]
        ⟨[5, 5], .unexpectedEof⟩ 0
      = .ok ([.mk [1, 2, 3, 4] 0 (.typedData .unparsed)], ⟨[5, 5], .unexpectedEof⟩) := by
  constructor
  · exact parse_atoms_budget_bounded.1
      [([9, 9, 9, 9], [5]), ([1, 2, 3, 4], [7, 7])]
      [.mk [1, 2, 3, 4] 0 (.typedData .unparsed)] 19 [3, 3] .unexpectedEof
      (by decide) (by decide) (by decide)
  · exact parse_atoms_budget_bounded.2 [.mk [1, 2, 3, 4] 0 (.typedData .unparsed)]
      ⟨[5, 5], .unexpectedEof⟩ 0 (Or.inl rfl)

theorem parsedDataAtom_offset (a : Atom) (seg : List Nat) :
    (parsedDataAtom a seg).offset = a.offset := by
  obtain ⟨ah, ao, ac⟩ := a
  unfold parsedDataAtom
  by_cases hs : seg = []
  · rw [if_pos hs]; rfl
  · rw [if_neg hs]
    simp only [Atom.content_mk]
    cases ac <;> rfl

theorem Data.parsed_twice (d : Data) (b1 b2 : List Nat) :
    Data.parsed (Data.parsed d b1) b2 = Data.parsed d b2 := by
  cases d <;> rfl

theorem parsedDataAtom_twice {a : Atom} {b1 : List Nat} (hb1 : b1 ≠ [])
    (b2 : List Nat) :
    parsedDataAtom (parsedDataAtom a b1) b2 = parsedDataAtom a b2 := by
  obtain ⟨ah, ao, ac⟩ := a
  by_cases hb2 : b2 = [] <;>
    cases ac <;>
      simp [parsedDataAtom, hb1, hb2, Data.parsed_twice]

/-- C8: the templates of `parse_atoms` are tried in list order, and the
first template whose head matches claims the atom: with two colliding
templates `a` (earlier) and `b` (later) in the list, the first stream
occurrence of their shared head is parsed into `a`, while `b` and every
other template are left untouched (the parent budget here covers exactly
that one atom). -/
theorem parse_atoms_first_match_wins (pre : List Atom) (a : Atom)
    (mid : List Atom) (b : Atom) (post : List Atom)
    (h body rest : List Nat) (e : IoErrKind)
    (hh : h.length = 4) (hL : 8 + body.length < 4294967296)
    (hpre : ∀ t ∈ pre, t.head ≠ h) (_hmid : ∀ t ∈ mid, t.head ≠ h)
    (ha : a.head = h) (_hb : b.head = h) (hdl : dataLike a = true) :
    Atom.parse_atoms (pre ++ a :: (mid ++ b :: post))
        ⟨frame h body ++ rest, e⟩ (8 + body.length)
      = .ok (pre ++ parsedDataAtom a body :: (mid ++ b :: post), ⟨rest, e⟩) := by
  unfold Atom.parse_atoms
  have hflen : (frame h body ++ rest).length = 8 + body.length + rest.length := by
    simp [frame_length body hh]
  have hfuel : parseAtomsLoopF
        ((⟨frame h body ++ rest, e⟩ : Reader).data.length + 1)
        (pre ++ a :: (mid ++ b :: post)) ⟨frame h body ++ rest, e⟩
        (8 + body.length) 0 0
      = parseAtomsLoopF (8 + body.length + rest.length + 1)
        (pre ++ a :: (mid ++ b :: post)) ⟨frame h body ++ rest, e⟩
        (8 + body.length) 0 0 :=
    parseAtomsLoopF_irrel
      (by show (frame h body ++ rest).length < (frame h body ++ rest).length + 1
          omega)
      (by show (frame h body ++ rest).length < _; rw [hflen]; omega)
  rw [hfuel]
  rw [parseAtomsLoopF_succ, if_pos ⟨by omega, by simp⟩]
  rw [frame_append_assoc,
    parse_head_frame (8 + body.length) h (body ++ rest) e hL hh]
  dsimp only
  rw [splitAtMatch_mk pre a (mid ++ b :: post) h hpre ha]
  dsimp only
  rw [parseContentF_dataLike (by omega) hdl body rest e]
  dsimp only
  obtain ⟨g2, hg2⟩ : ∃ g2, 8 + body.length + rest.length = g2 + 1 :=
    ⟨7 + body.length + rest.length, by omega⟩
  rw [hg2, parseAtomsLoopF_succ, if_neg (by omega)]

theorem parse_atoms_first_match_wins_witness :
    Atom.parse_atoms
        [.mk [1, 2, 3, 4] 0 (.typedData .unparsed),
         .mk [1, 2, 3, 4] 0 (.typedData .unparsed)]
        ⟨frame [1, 2, 3, 4] [7] ++ [9, 9], .unexpectedEof⟩ 9
      = .ok ([.mk [1, 2, 3, 4] 0 (.typedData (.bytes [7])),
              .mk [1, 2, 3, 4] 0 (.typedData .unparsed)],
          ⟨[9, 9], .unexpectedEof⟩) :=
  parse_atoms_first_match_wins [] (.mk [1, 2, 3, 4] 0 (.typedData .unparsed))
    [] (.mk [1, 2, 3, 4] 0 (.typedData .unparsed)) [] [1, 2, 3, 4] [7] [9, 9]
    .unexpectedEof (by decide) (by decide) (by decide) (by decide) (by rfl)
    (by rfl) (by rfl)

/-- C9 counterexample: two sibling atoms with the same fourcc both match the
same (first) template: the second occurrence is parsed into it again and
overwrites the first captured value (the captured payload is `[2]`, the body
of the second occurrence, not `[1]`), the matched count is incremented
twice, and the second template is starved (left `Unparsed`, its own atom
left unread in the stream). -/
theorem parse_atoms_duplicate_overwrite_cex :
    Atom.parse_atoms
        [.mk [1, 2, 3, 4] 0 (.typedData .unparsed),
         .mk [8, 8, 8, 8] 0 (.typedData .unparsed)]
        ⟨frame [1, 2, 3, 4] [1] ++ frame [1, 2, 3, 4] [2]
          ++ frame [8, 8, 8, 8] [3], .unexpectedEof⟩ 100
      = .ok ([.mk [1, 2, 3, 4] 0 (.typedData (.bytes [2])),
              .mk [8, 8, 8, 8] 0 (.typedData .unparsed)],
          ⟨[0, 0, 0, 9, 8, 8, 8, 8, 3], .unexpectedEof⟩) ∧
    Data.bytes [2] ≠ Data.bytes [1] :=
  ⟨by rfl, by decide⟩

/-- C9 (amended): when duplicate sibling atoms of the same fourcc occur,
each occurrence matches the same (first) template again: the later duplicate
overwrites the captured content with its own payload, and each duplicate
increments the matched count, which can exhaust the match budget and leave
other templates unmatched (here the two-template scan stops after the two
duplicates, never reaching the remainder of the stream). -/
theorem parse_atoms_duplicate_overwrites (a c : Atom)
    (h b1 b2 rest : List Nat) (e : IoErrKind) (budget : Nat)
    (hh : h.length = 4) (hb1 : b1 ≠ []) (_hb2 : b2 ≠ [])
    (hL1 : 8 + b1.length < 4294967296) (hL2 : 8 + b2.length < 4294967296)
    (ha : a.head = h) (hdl : dataLike a = true)
    (hbud : 8 + b1.length < budget) :
    Atom.parse_atoms [a, c] ⟨frame h b1 ++ (frame h b2 ++ rest), e⟩ budget
      = .ok ([parsedDataAtom a b2, c], ⟨rest, e⟩) := by
  unfold Atom.parse_atoms
  have hflen : (frame h b1 ++ (frame h b2 ++ rest)).length
      = 8 + b1.length + (8 + b2.length + rest.length) := by
    simp [frame_length b1 hh, frame_length b2 hh]
    try omega
  have hfuel : parseAtomsLoopF
        ((⟨frame h b1 ++ (frame h b2 ++ rest), e⟩ : Reader).data.length + 1)
        [a, c] ⟨frame h b1 ++ (frame h b2 ++ rest), e⟩ budget 0 0
      = parseAtomsLoopF (8 + b1.length + (8 + b2.length + rest.length) + 1)
        [a, c] ⟨frame h b1 ++ (frame h b2 ++ rest), e⟩ budget 0 0 :=
    parseAtomsLoopF_irrel
      (by show (frame h b1 ++ (frame h b2 ++ rest)).length
            < (frame h b1 ++ (frame h b2 ++ rest)).length + 1
          omega)
      (by show (frame h b1 ++ (frame h b2 ++ rest)).length < _
          rw [hflen]; omega)
  rw [hfuel]
  rw [parseAtomsLoopF_succ, if_pos ⟨by omega, by simp⟩]
  rw [frame_append_assoc,
    parse_head_frame (8 + b1.length) h (b1 ++ (frame h b2 ++ rest)) e hL1 hh]
  dsimp only
  rw [splitAtMatch_cons_match ha.symm]
  dsimp only
  rw [parseContentF_dataLike (by omega) hdl b1 (frame h b2 ++ rest) e]
  dsimp only
  obtain ⟨g2, hg2⟩ : ∃ g2, 8 + b1.length + (8 + b2.length + rest.length) = g2 + 1 :=
    ⟨7 + b1.length + (8 + b2.length + rest.length), by omega⟩
  rw [hg2, parseAtomsLoopF_succ, if_pos ⟨by omega, by simp⟩]
  simp only [List.nil_append]
  rw [frame_append_assoc,
    parse_head_frame (8 + b2.length) h (b2 ++ rest) e hL2 hh]
  dsimp only
  rw [splitAtMatch_cons_match (by rw [parsedDataAtom_head, ha])]
  dsimp only
  rw [parseContentF_dataLike (by omega) (dataLike_parsedDataAtom hdl b1) b2 rest e]
  dsimp only
  obtain ⟨g3, hg3⟩ : ∃ g3, g2 = g3 + 1 := ⟨g2 - 1, by omega⟩
  rw [hg3, parseAtomsLoopF_succ, if_neg (by rintro ⟨-, hcc⟩; simp at hcc)]
  simp [parsedDataAtom_twice hb1]

theorem parse_atoms_duplicate_overwrites_witness :
    Atom.parse_atoms
        [.mk [1, 2, 3, 4] 0 (.typedData .unparsed),
         .mk [8, 8, 8, 8] 0 (.typedData .unparsed)]
        ⟨frame [1, 2, 3, 4] [1] ++ (frame [1, 2, 3, 4] [2] ++ [5, 5]),
          .unexpectedEof⟩ 100
      = .ok ([.mk [1, 2, 3, 4] 0 (.typedData (.bytes [2])),
              .mk [8, 8, 8, 8] 0 (.typedData .unparsed)],
          ⟨[5, 5], .unexpectedEof⟩) :=
  parse_atoms_duplicate_overwrites
    (.mk [1, 2, 3, 4] 0 (.typedData .unparsed))
    (.mk [8, 8, 8, 8] 0 (.typedData .unparsed))
    [1, 2, 3, 4] [1] [2] [5, 5] .unexpectedEof 100
    (by decide) (by decide) (by decide) (by decide) (by decide) (by rfl)
    (by rfl) (by decide)

/-- A framed atom whose head matches the template at the front of the
stream: `Atom::parse` dispatches to `parse_content` immediately;
for a data-like template the result is `parsedDataAtom`. -/
theorem parse_matchFrame (t : Atom) (body rest : List Nat) (e : IoErrKind)
    (hh4 : t.head.length = 4) (hL : 8 + body.length < 4294967296)
    (hdl : dataLike t = true) :
    Atom.parse t ⟨frame t.head body ++ rest, e⟩
      = .ok (parsedDataAtom t body, ⟨rest, e⟩) := by
  unfold Atom.parse
  have hflen : (frame t.head body ++ rest).length
      = 8 + body.length + rest.length := by
    simp [frame_length body hh4]
  have hfuel : parseLoopF
        ((⟨frame t.head body ++ rest, e⟩ : Reader).data.length + 1) t
        ⟨frame t.head body ++ rest, e⟩
      = parseLoopF (8 + body.length + rest.length + 1) t
        ⟨frame t.head body ++ rest, e⟩ :=
    parseLoopF_irrel
      (by show (frame t.head body ++ rest).length
            < (frame t.head body ++ rest).length + 1
          omega)
      (by show (frame t.head body ++ rest).length < _; rw [hflen]; omega)
  rw [hfuel]
  rw [parseLoopF_succ, frame_append_assoc,
    parse_head_frame (8 + body.length) t.head (body ++ rest) e hL hh4]
  dsimp only
  rw [if_pos rfl]
  exact parseContentF_dataLike (by omega) hdl body rest e

/-- C4: `read_from` on a stream that begins with a valid, well-framed
`ftyp` atom: when the decoded text does not start with one of the
registered file-type codes `"M4A "`/`"M4B "` (e.g. `"isom"`), the result is
`NoTag`; when the `ftyp` is accepted but the stream ends before a `moov`
atom, the result is `AtomNotFound(moov)`. -/
theorem read_from_filetype_errors :
    (∀ (body rest : List Nat) (e : IoErrKind) (s : String),
      body ≠ [] → 8 + body.length < 4294967296 →
      decodeUtf8 body = .ok s →
      strStartsWith s "M4A " = false → strStartsWith s "M4B " = false →
      Atom.read_from ⟨frame FILE_TYPE body ++ rest, e⟩ = .error .noTag) ∧
    (∀ (body : List Nat) (s : String),
      body ≠ [] → 8 + body.length < 4294967296 →
      decodeUtf8 body = .ok s → strStartsWith s "M4A " = true →
      Atom.read_from ⟨frame FILE_TYPE body, .unexpectedEof⟩
        = .error (.atomNotFound MOVIE)) := by
  have hpda : ∀ body : List Nat, body ≠ [] →
      parsedDataAtom Atom.filetype_atom body
        = .mk FILE_TYPE 0 (.rawData (.utf8 (decodeUtf8 body))) := by
    intro body hbody
    unfold parsedDataAtom Atom.filetype_atom
    rw [if_neg hbody]
    rfl
  constructor
  · intro body rest e s hbody hL hdec hm4a hm4b
    unfold Atom.read_from
    have hft : frame FILE_TYPE body = frame Atom.filetype_atom.head body := rfl
    rw [hft, parse_matchFrame Atom.filetype_atom body rest e (by rfl) hL (by rfl)]
    dsimp only
    rw [hpda body hbody, hdec]
    have hvf : Atom.is_valid_filetype
        (.mk FILE_TYPE 0 (.rawData (.utf8 (.ok s)))) = false := by
      unfold Atom.is_valid_filetype VALID_FILE_TYPES
      simp [hm4a, hm4b]
    rw [hvf]
    rw [if_neg (by simp)]
  · intro body s hbody hL hdec hm4a
    unfold Atom.read_from
    have hft : frame FILE_TYPE body = frame Atom.filetype_atom.head body := rfl
    have happ : frame Atom.filetype_atom.head body
        = frame Atom.filetype_atom.head body ++ [] := by simp
    rw [hft, happ,
      parse_matchFrame Atom.filetype_atom body [] .unexpectedEof (by rfl) hL (by rfl)]
    dsimp only
    rw [hpda body hbody, hdec]
    have hvf : Atom.is_valid_filetype
        (.mk FILE_TYPE 0 (.rawData (.utf8 (.ok s)))) = true := by
      unfold Atom.is_valid_filetype VALID_FILE_TYPES
      simp [hm4a]
    rw [hvf]
    rw [if_pos rfl]
    unfold Atom.parse
    rw [parseLoopF_succ, parse_head_short (by simp)]
    dsimp only
    rw [if_pos rfl]
    rfl

theorem read_from_filetype_errors_witness :
    Atom.read_from ⟨frame FILE_TYPE [0x69, 0x73, 0x6f, 0x6d] ++ [9, 9],
        .unexpectedEof⟩ = .error .noTag ∧
    Atom.read_from ⟨frame FILE_TYPE [0x4d, 0x34, 0x41, 0x20], .unexpectedEof⟩
      = .error (.atomNotFound MOVIE) := by
  constructor
  · exact read_from_filetype_errors.1 [0x69, 0x73, 0x6f, 0x6d] [9, 9]
      .unexpectedEof "isom" (by decide) (by decide) (by decide) (by decide)
      (by decide)
  · exact read_from_filetype_errors.2 [0x4d, 0x34, 0x41, 0x20] "M4A "
      (by decide) (by decide) (by decide) (by decide)

end Mp4ameta
